import Mathlib

/-! TritonHTTP: request parser, response builder/writer and connection handler.

A shallow embedding of `pkg/tritonhttp` (`request.go`, `response.go`,
`server.go`).

* Go strings are embedded as lists of Unicode code points (`Str`); the bytes
  put on the wire are their UTF-8 encoding (`utf8`).
* Go maps `map[string]string` are embedded as association lists with unique
  keys (`GoMap`); assignment `m[k] = v` is `AList.insert`.
* A run-time panic (index out of range, nil dereference, explicit `panic`) is
  the value `none` of an `Option` result.
* The buffered reader is embedded at the level of lines (`Reader`).
-/

namespace TritonHTTP

/-! ## Strings -/

/-- Go `string`, as the list of its code points. -/
abbrev Str := List Char

/-- Go `map[string]string`. -/
abbrev GoMap := AList (fun _ : Str => Str)

/-- The UTF-8 encoding of one code point, as a list of byte values. -/
def utf8EncodeChar (c : Char) : List Nat :=
  let v := c.toNat
  if v < 0x80 then [v]
  else if v < 0x800 then [0xC0 + v / 64, 0x80 + v % 64]
  else if v < 0x10000 then [0xE0 + v / 4096, 0x80 + v / 64 % 64, 0x80 + v % 64]
  else [0xF0 + v / 262144, 0x80 + v / 4096 % 64, 0x80 + v / 64 % 64, 0x80 + v % 64]

/-- The bytes of a Go string. -/
def utf8 (s : Str) : List Nat := s.flatMap utf8EncodeChar

/-- Go `unicode.IsSpace`. -/
def isSpace (c : Char) : Bool :=
  let v := c.toNat
  v = 0x09 || v = 0x0A || v = 0x0B || v = 0x0C || v = 0x0D || v = 0x20 ||
  v = 0x85 || v = 0xA0 || v = 0x1680 || (0x2000 ≤ v && v ≤ 0x200A) ||
  v = 0x2028 || v = 0x2029 || v = 0x202F || v = 0x205F || v = 0x3000

/-- Go `strings.TrimSpace`: all leading and trailing white space removed. -/
def TrimSpace (s : Str) : Str := (s.dropWhile isSpace).rdropWhile isSpace

/-- Go `strings.HasPrefix`. -/
def startsWith (s : Str) (pre : Str) : Bool := pre.isPrefixOf s

/-- Go `strings.HasSuffix`. -/
def endsWith (s : Str) (suf : Str) : Bool := suf.isSuffixOf s

/-- Go `strings.ContainsAny`: some code point of `s` occurs in `chars`. -/
def ContainsAny (s : Str) (chars : Str) : Bool := s.any (fun c => chars.contains c)

/-- Go `strings.SplitN(s, sep, n)` for a one-character separator: at most `n`
substrings, the last one being the unsplit remainder; `n = 0` gives no
substring. -/
def SplitN (s : Str) (sep : Char) : Nat → List Str
  | 0 => []
  | 1 => [s]
  | n + 2 =>
    match s.span (fun c => c != sep) with
    | (a, []) => [a]
    | (a, _ :: rest) => a :: SplitN rest sep (n + 1)

/-- Go `strconv.FormatInt(n, 10)` and the verb `%v` on a non-negative integer. -/
def FormatInt (n : Nat) : Str := Nat.toDigits 10 n

/-! ## Errors and the line reader -/

/-- The errors `ReadRequest` can return: those of the underlying stream, and
the parse failures built with `fmt.Errorf`. -/
inductive Err
  | eof
  | timeout
  | transport
  | incompleteLine
  | malformedStartLine (fields : List Str)
  | invalidMethod (method : Str)
  | invalidURL (url : Str)
  | invalidHeaderLine
  | invalidHeaderKey
  | missingHost
  deriving DecidableEq, Repr

/-- Go `errors.Is(err, io.EOF)`. -/
def Err.isEOF : Err → Bool
  | .eof => true
  | _ => false

/-- Go `err.(net.Error)` with `Timeout()` true. -/
def Err.isTimeout : Err → Bool
  | .timeout => true
  | _ => false

/-- The buffered reader over a connection, at the level of lines: the complete
CRLF-terminated lines still to come (CRLF stripped), the bytes of an unfinished
line that arrive after them, and the failure of the underlying stream that ends
the input. -/
structure Reader where
  lines : List Str
  pending : Str
  fail : Err
  deriving DecidableEq, Repr

/-- The error of a line read when no complete line is left: an end of stream
in the middle of a line is an incomplete line, any other failure of the stream
is passed on unchanged. -/
def readLineErr (pending : Str) (fail : Err) : Err :=
  if pending ≠ [] ∧ fail = Err.eof then Err.incompleteLine else fail

/-- Modelled from the spec: `ReadLine` (its file, `util.go`, is not among the
sources). It returns one line with the trailing CRLF stripped, or fails with
an incomplete-line error if the stream ends in the middle of a line, or passes
on the error of the underlying stream unchanged. -/
def ReadLine (br : Reader) : Except Err Str × Reader :=
  match br.lines with
  | l :: rest => (.ok l, { br with lines := rest })
  | [] => (.error (readLineErr br.pending br.fail), br)

/-- One step of canonical capitalisation; `up` tells whether the next letter
starts a segment. -/
def canonAux : Bool → Str → Str
  | _, [] => []
  | up, c :: cs => (if up then c.toUpper else c.toLower) :: canonAux (c == '-') cs

/-- Modelled from the spec: `CanonicalHeaderKey` (its file, `util.go`, is not
among the sources). Header names are case-insensitive on input and stored in
canonical capitalisation: the first letter of each hyphen-delimited segment is
upper case, as in `content-type` becoming `Content-Type`. -/
def CanonicalHeaderKey (s : Str) : Str := canonAux true s

/-! ## request.go -/

/-- Go `type Request struct`. -/
structure Request where
  Method : Str
  URL : Str
  Proto : Str
  Header : GoMap
  Host : Str
  Close : Bool
  deriving DecidableEq

/-- The triple `(req, bytesReceived, err)` returned by `ReadRequest`. -/
structure ReadResult where
  req : Option Request
  bytesReceived : Bool
  err : Option Err
  deriving DecidableEq

/-- Go `parseStartLine`. -/
def parseStartLine (line : Str) : Except Err (Str × Str × Str) :=
  match SplitN line ' ' 3 with
  | [a, b, c] => .ok (a, b, c)
  | fields => .error (.malformedStartLine fields)

/-- Go `validMethod`. -/
def validMethod (method : Str) (proto : Str) : Bool :=
  method == "GET".toList && proto == "HTTP/1.1".toList

/-- Go `sepHeaderline`. -/
def sepHeaderline (line : Str) : Except Unit (Str × Str) :=
  match SplitN line ':' 2 with
  | [k, v] => .ok (CanonicalHeaderKey (TrimSpace k), TrimSpace v)
  | _ => .error ()

/-- The characters a header key may not contain (the literal of `ReadRequest`). -/
def forbiddenChars : Str := " !#$%&'*+@\x7b\x7d[]:;.^_`|~".toList

/-- The header loop of `ReadRequest` together with the code after it, over the
lines still to be read. -/
def readHeaders (pending : Str) (fail : Err) : List Str → Request → Option (ReadResult × Reader)
  | [], _ => some (⟨none, true, some (readLineErr pending fail)⟩, ⟨[], pending, fail⟩)
  | raw :: rest, req =>
    let line := TrimSpace raw
    if line = [] then
      if req.Host = [] then some (⟨none, true, some .missingHost⟩, ⟨rest, pending, fail⟩)
      else some (⟨some req, true, none⟩, ⟨rest, pending, fail⟩)
    else if startsWith line "Host".toList then
      match (SplitN line ' ' 2)[1]? with
      | none => none
      | some h => readHeaders pending fail rest { req with Host := h }
    else if startsWith line "Connection".toList then
      match (SplitN line ' ' 2)[1]? with
      | none => none
      | some v => readHeaders pending fail rest { req with Close := (v == "close".toList) }
    else
      match sepHeaderline line with
      | .error _ => some (⟨none, true, some .invalidHeaderLine⟩, ⟨rest, pending, fail⟩)
      | .ok (key, val) =>
        if ContainsAny key forbiddenChars then
          some (⟨none, true, some .invalidHeaderKey⟩, ⟨rest, pending, fail⟩)
        else readHeaders pending fail rest { req with Header := req.Header.insert key val }

/-- Go `ReadRequest`. The result is `none` when the function panics; otherwise
it is the returned triple and the reader after the lines consumed. -/
def ReadRequest (br : Reader) : Option (ReadResult × Reader) :=
  match ReadLine br with
  | (.error e, br1) => some (⟨none, false, some e⟩, br1)
  | (.ok startline, br1) =>
    match parseStartLine startline with
    | .error e => some (⟨none, true, some e⟩, br1)
    | .ok (method, url, proto) =>
      if !validMethod method proto then some (⟨none, true, some (.invalidMethod method)⟩, br1)
      else
        match url with
        | [] => none
        | c :: _ =>
          if c != '/' then some (⟨none, true, some (.invalidURL url)⟩, br1)
          else
            readHeaders br1.pending br1.fail br1.lines
              { Method := method, URL := url, Proto := proto, Header := ∅, Host := [], Close := false }

/-! ## Well-formed requests as line streams -/

/-- The header line `k: v`. -/
def headerLine (kv : Str × Str) : Str := kv.1 ++ ": ".toList ++ kv.2

/-- The lines of a GET request for `p` with host `h` and the further headers
`hdrs`, ended by the empty line. -/
def requestLines (p h : Str) (hdrs : List (Str × Str)) : List Str :=
  ("GET ".toList ++ p ++ " HTTP/1.1".toList) :: ("Host: ".toList ++ h) ::
    (hdrs.map headerLine ++ [[]])

/-- The header map of the headers `hdrs`: each value trimmed and stored under
its trimmed, canonicalised key, in the order of the lines. -/
def headerMapOf (hdrs : List (Str × Str)) : GoMap :=
  hdrs.foldl (fun m kv => m.insert (CanonicalHeaderKey (TrimSpace kv.1)) (TrimSpace kv.2)) ∅

/-- The reader of the request `GET / HTTP/1.1` with `Host: x`, then end of stream. -/
def sampleReader : Reader := ⟨requestLines "/".toList "x".toList [], [], .eof⟩

/-- The request `GET / HTTP/1.1` with `Host: x`. -/
def sampleRequest : Request :=
  { Method := "GET".toList, URL := "/".toList, Proto := "HTTP/1.1".toList,
    Header := ∅, Host := "x".toList, Close := false }

/-! ## The environment: file system, clock, connection -/

/-- A point in time (`time.Time`). -/
abbrev Time := Nat

/-- Go `os.FileInfo`, as far as the server reads it. -/
structure FileInfo where
  Size : Nat
  ModTime : Time
  deriving DecidableEq, Repr

/-- The error of `os.Stat`: `os.IsNotExist` holds of `notExist` only. -/
inductive StatErr
  | notExist
  | other
  deriving DecidableEq, Repr

/-- What the server reads from its environment: `os.Stat`, `ioutil.ReadFile`,
`time.Now`, and the two helpers of `util.go` (not among the sources) that
format a time and map a file extension to a MIME type. -/
structure Env where
  Stat : Str → Except StatErr FileInfo
  ReadFile : Str → Option (List Nat)
  Now : Time
  FormatTime : Time → Str
  MIMETypeByExtension : Str → Str

/-- There is a file at path `f` whose content is `data`: the path is not
empty, `os.Stat` reports the size of the content, and reading gives it. -/
def Env.fileAt (env : Env) (f : Str) (data : List Nat) : Prop :=
  f ≠ [] ∧ (∃ info, env.Stat f = .ok info ∧ info.Size = data.length) ∧
    env.ReadFile f = some data

/-- A `net.Conn`, seen from the handler: whether it has been closed, and the
bytes written to it so far. -/
structure Conn where
  closed : Bool
  out : List Nat
  deriving DecidableEq, Repr

/-- How a write ends: without error, with an error, or in a panic. -/
inductive WriteResult
  | ok
  | err (e : Err)
  | panic
  deriving DecidableEq, Repr

/-- Go `conn.Close()`. -/
def Conn.Close (c : Conn) : Conn := { c with closed := true }

/-- Go `conn.SetReadDeadline(...)`: as every operation of package `net`, it
fails on a connection that has been closed. -/
def Conn.SetReadDeadline (c : Conn) : Option Err :=
  if c.closed then some .transport else none

/-- A buffered write of `b` followed by `Flush`: nothing reaches the
connection when `b` is empty; on a closed connection the write fails; on an
open one the bytes are appended. -/
def Conn.Write (c : Conn) (b : List Nat) : Conn × Option Err :=
  if b = [] then (c, none)
  else if c.closed then (c, some .transport)
  else ({ c with out := c.out ++ b }, none)

/-! ## response.go -/

/-- Go `type Response struct`. -/
structure Response where
  StatusCode : Nat
  Proto : Str
  Header : GoMap
  Request : Option Request
  FilePath : Str
  deriving DecidableEq

/-- Go `&Response{}`. -/
def Response.zero : Response :=
  { StatusCode := 0, Proto := [], Header := ∅, Request := none, FilePath := [] }

def responseProto : Str := "HTTP/1.1".toList

def statusOK : Nat := 200

def statusBadRequest : Nat := 400

def statusNotFound : Nat := 404

/-- The entries of the Go map `statusText`. -/
def statusTextTable : List (Nat × Str) :=
  [(statusOK, "OK".toList), (statusBadRequest, "Bad Request".toList),
   (statusNotFound, "Not Found".toList)]

/-- Go `statusText[code]`: the empty string for a code that is not a key. -/
def statusText (code : Nat) : Str := (statusTextTable.lookup code).getD []

/-- The status line `WriteStatusLine` formats with `"%v %v %v\r\n"`. -/
def Response.statusLine (res : Response) : Str :=
  res.Proto ++ " ".toList ++ FormatInt res.StatusCode ++ " ".toList ++
    statusText res.StatusCode ++ "\r\n".toList

/-- Go `Response.WriteStatusLine`. -/
def Response.WriteStatusLine (res : Response) (w : Conn) : Conn × Option Err :=
  w.Write (utf8 res.statusLine)

/-- Go `sort.Strings`: ascending in the byte-wise order of Go strings, which on
UTF-8 text is the lexicographic order of the code points. -/
def sortStrings (keys : List Str) : List Str := keys.insertionSort (fun a b => a ≤ b)

/-- The string `headerstr` that `WriteSortedHeaders` builds. -/
def Response.headerString (res : Response) : Str :=
  (sortStrings res.Header.keys).foldl
    (fun headerstr key =>
      headerstr ++ (key ++ ": ".toList ++ (res.Header.lookup key).getD [] ++ "\r\n".toList))
    [] ++ "\r\n".toList

/-- Go `Response.WriteSortedHeaders`. -/
def Response.WriteSortedHeaders (res : Response) (w : Conn) : Conn × Option Err :=
  w.Write (utf8 res.headerString)

/-- The size of the buffer of a `bufio.Writer`. -/
def defaultBufSize : Nat := 4096

/-- Go `Response.WriteBody`. Reading the file may fail, and a write larger than
the buffer goes to the connection at once, where it may fail: both panic. -/
def Response.WriteBody (res : Response) (env : Env) (w : Conn) : Conn × WriteResult :=
  if res.FilePath = [] then (w, .ok)
  else
    match env.ReadFile res.FilePath with
    | none => (w, .panic)
    | some data =>
      match w.Write data with
      | (w1, none) => (w1, .ok)
      | (w1, some e) => if data.length > defaultBufSize then (w1, .panic) else (w1, .err e)

/-- Go `Response.Write`. -/
def Response.Write (res : Response) (env : Env) (w : Conn) : Conn × WriteResult :=
  match res.WriteStatusLine w with
  | (w1, some e) => (w1, .err e)
  | (w1, none) =>
    match res.WriteSortedHeaders w1 with
    | (w2, some e) => (w2, .err e)
    | (w2, none) => res.WriteBody env w2

/-! ## Paths (`path`, `path/filepath`) -/

/-- Go `path.Ext`: the suffix of the last slash-separated element that begins
at its last dot; empty if there is no dot. -/
def pathExtRev : Str → Str → Str
  | [], _ => []
  | c :: cs, acc =>
    if c = '/' then [] else if c = '.' then c :: acc else pathExtRev cs (c :: acc)

/-- Go `path.Ext`. -/
def pathExt (path : Str) : Str := pathExtRev path.reverse []

/-- The backtracking of `filepath.Clean` on a `..` element, on the reversed
output: `c` is the byte just dropped, and bytes are dropped until the output
is no longer than `dotdot` or the byte dropped is a separator. -/
def cleanBack (dotdot : Nat) : Char → Str → Str
  | _, [] => []
  | c, d :: ks =>
    if (d :: ks).length > dotdot && c != '/' then cleanBack dotdot d ks else d :: ks

/-- The main loop of `filepath.Clean`: `rest` is the input from index `r` on,
`out` the output written so far. Each round consumes input, so a fuel of the
length of the input suffices. -/
def cleanLoop (rooted : Bool) : Nat → Str → Str → Nat → Str
  | 0, _, out, _ => out
  | _ + 1, [], out, _ => out
  | fuel + 1, c :: t, out, dotdot =>
    if c = '/' then cleanLoop rooted fuel t out dotdot
    else if c = '.' && (t = [] || t.head? = some '/') then cleanLoop rooted fuel t out dotdot
    else if c = '.' && t.head? = some '.' && (t.tail = [] || t.tail.head? = some '/') then
      if out.length > dotdot then
        match out.reverse with
        | [] => cleanLoop rooted fuel t.tail out dotdot
        | l :: ks => cleanLoop rooted fuel t.tail (cleanBack dotdot l ks).reverse dotdot
      else if !rooted then
        let out1 := (if out.length > 0 then out ++ ['/'] else out) ++ ['.', '.']
        cleanLoop rooted fuel t.tail out1 out1.length
      else cleanLoop rooted fuel t.tail out dotdot
    else
      let out1 :=
        if (rooted && out.length != 1) || (!rooted && out.length != 0) then out ++ ['/'] else out
      let elem := (c :: t).takeWhile (fun x => x != '/')
      cleanLoop rooted fuel ((c :: t).dropWhile (fun x => x != '/')) (out1 ++ elem) dotdot

/-- Go `filepath.Clean` (Unix). -/
def filepathClean (path : Str) : Str :=
  match path with
  | [] => ['.']
  | c :: t =>
    let rooted := c == '/'
    let out :=
      if rooted then cleanLoop true (path.length + 1) t ['/'] 1
      else cleanLoop false (path.length + 1) path [] 0
    if out = [] then ['.'] else out

/-- Go `strings.Join(elems, "/")`. -/
def joinSlash : List Str → Str
  | [] => []
  | [e] => e
  | e :: es => e ++ '/' :: joinSlash es

/-- Go `filepath.Join` (Unix): the elements from the first non-empty one on,
joined with `/` and cleaned; the empty string if all are empty. -/
def filepathJoin : List Str → Str
  | [] => []
  | e :: es => if e = [] then filepathJoin es else filepathClean (joinSlash (e :: es))

/-! ## server.go -/

/-- Go `type Server struct`. -/
structure Server where
  Addr : Str
  DocRoot : Str
  deriving DecidableEq

/-- Go `Response.HandleOK`. The second `os.Stat` returns a nil `FileInfo` when
it fails, and the call of `ModTime` on it panics: the result is then `none`. -/
def Response.HandleOK (res : Response) (env : Env) (req : TritonHTTP.Request) (fpath : Str) :
    Option Response :=
  let h0 : GoMap := (∅ : GoMap).insert "Date".toList (env.FormatTime env.Now)
  let h1 := if req.Close then h0.insert "Connection".toList "close".toList else h0
  match env.Stat fpath with
  | .error _ => none
  | .ok fistatus =>
    some { res with
      StatusCode := statusOK
      FilePath := fpath
      Proto := responseProto
      Header := ((h1.insert "Last-Modified".toList (env.FormatTime fistatus.ModTime)).insert
        "Content-Type".toList (env.MIMETypeByExtension (pathExt req.URL))).insert
        "Content-Length".toList (FormatInt fistatus.Size) }

/-- Go `Response.HandleBadRequest`. -/
def Response.HandleBadRequest (res : Response) (env : Env) : Response :=
  { res with
    StatusCode := statusBadRequest
    Proto := responseProto
    FilePath := []
    Header := ((∅ : GoMap).insert "Connection".toList "close".toList).insert
      "Date".toList (env.FormatTime env.Now) }

/-- Go `Response.HandleNotFound`. -/
def Response.HandleNotFound (res : Response) (env : Env) (req : TritonHTTP.Request) :
    Response :=
  let h0 : GoMap := (∅ : GoMap).insert "Date".toList (env.FormatTime env.Now)
  { res with
    Proto := responseProto
    StatusCode := statusNotFound
    Header := if req.Close then h0.insert "Connection".toList "close".toList else h0 }

/-- Go `Server.HandleGoodRequest`. It changes the URL of `req` in place, so the
request after the call is returned with the response; `none` is a panic. -/
def Server.HandleGoodRequest (s : Server) (env : Env) (req : Request) :
    Option (Response × Request) :=
  let req1 : Request :=
    if endsWith req.URL "/".toList then { req with URL := req.URL ++ "index.html".toList }
    else req
  let respath := filepathClean (filepathJoin [s.DocRoot, req1.URL])
  match env.Stat respath with
  | .error .notExist => some (Response.zero.HandleNotFound env req1, req1)
  | _ => (Response.zero.HandleOK env req1 respath).map (fun res => (res, req1))

/-- How far the handler of one connection has got. -/
inductive Status
  | running
  | returned
  | panicked
  deriving DecidableEq, Repr

/-- The state of `HandleConnection`: the connection, the buffered reader, the
number of calls of `ReadRequest` made so far, and whether the handler is still
in its loop. -/
structure HState where
  conn : Conn
  br : Reader
  reads : Nat
  status : Status
  deriving DecidableEq, Repr

/-- The three lines `res := &Response{}; res.HandleBadRequest(); _ = res.Write(conn)`. -/
def writeBadRequest (env : Env) (conn : Conn) : Conn × WriteResult :=
  (Response.zero.HandleBadRequest env).Write env conn

/-- The body of the loop of `HandleConnection` after the call of `ReadRequest`,
on the triple `r` it returned: the connection afterwards, and whether the
handler returned, goes on to the next round, or panicked. -/
def Server.respond (s : Server) (env : Env) (conn : Conn) (r : ReadResult) : Conn × Status :=
  if r.err.any Err.isEOF then
    let conn1 := if r.bytesReceived then (writeBadRequest env conn).1 else conn
    (conn1.Close, .returned)
  else if r.err.any Err.isTimeout then
    let conn1 := if r.bytesReceived then (writeBadRequest env conn).1 else conn
    (conn1.Close, .returned)
  else if r.err.isSome && r.bytesReceived then
    ((writeBadRequest env conn).1.Close, .returned)
  else
    match r.req with
    | none => (conn, .panicked)
    | some req =>
      match req.URL with
      | [] => (conn, .panicked)
      | c :: _ =>
        if c != '/' then ((writeBadRequest env conn).1.Close, .returned)
        else
          match s.HandleGoodRequest env req with
          | none => (conn, .panicked)
          | some (res, req1) =>
            match res.Write env conn with
            | (conn1, .panic) => (conn1, .panicked)
            | (conn1, _) => (if req1.Close then conn1.Close else conn1, .running)

/-- One round of the loop of `HandleConnection`, from a state in the loop. -/
def Server.iteration (s : Server) (env : Env) (st : HState) : HState :=
  match st.conn.SetReadDeadline with
  | some _ => { st with conn := st.conn.Close, status := .returned }
  | none =>
    match ReadRequest st.br with
    | none => { st with reads := st.reads + 1, status := .panicked }
    | some (r, br1) =>
      let (conn1, status1) := s.respond env st.conn r
      { conn := conn1, br := br1, reads := st.reads + 1, status := status1 }

/-- The loop of `HandleConnection`, for at most `fuel` rounds: a handler that
has returned or panicked stays as it is. -/
def Server.loop (s : Server) (env : Env) : Nat → HState → HState
  | 0, st => st
  | fuel + 1, st =>
    match st.status with
    | .running => Server.loop s env fuel (s.iteration env st)
    | _ => st

/-- Go `Server.HandleConnection`: every round but the last consumes a line of
the reader, so the number of lines bounds the number of rounds. -/
def Server.HandleConnection (s : Server) (env : Env) (conn : Conn) (br : Reader) : HState :=
  s.loop env (br.lines.length + 2) { conn := conn, br := br, reads := 0, status := .running }

/-- The text of a Bad Request response at the time `env.Now`: status line,
the headers `Connection: close` and `Date`, the blank line, no body. -/
def badRequestText (env : Env) : Str :=
  "HTTP/1.1 400 Bad Request\r\n".toList ++ "Connection: close\r\n".toList ++
    "Date: ".toList ++ env.FormatTime env.Now ++ "\r\n".toList ++ "\r\n".toList

/-- An environment with the single file `/srv/index.html` of five bytes. -/
def sampleEnv : Env where
  Stat := fun p => if p = "/srv/index.html".toList then .ok ⟨5, 7⟩ else .error .notExist
  ReadFile := fun p =>
    if p = "/srv/index.html".toList then some [104, 101, 108, 108, 111] else none
  Now := 3
  FormatTime := fun t => "T".toList ++ FormatInt t
  MIMETypeByExtension := fun e => "mime".toList ++ e

/-- A server with document root `/srv`. -/
def sampleServer : Server := ⟨":0".toList, "/srv".toList⟩

/-- The request `GET /nope HTTP/1.1` with `Host: x` and `Connection: close`. -/
def closeRequest : Request :=
  { Method := "GET".toList, URL := "/nope".toList, Proto := "HTTP/1.1".toList,
    Header := ∅, Host := "x".toList, Close := true }

/-- A handler about to read `closeRequest` from an open connection. -/
def closeState : HState :=
  ⟨⟨false, []⟩,
   ⟨requestLines "/nope".toList "x".toList [("Connection".toList, "close".toList)], [], .eof⟩,
   0, .running⟩

/-- An environment with the files `/srv/index.html` and `/etc/passwd`; the
stat of `/srv/index.html/x` fails with an error other than "does not exist"
(a component of the path is not a directory). -/
def hostEnv : Env where
  Stat := fun p =>
    if p = "/srv/index.html".toList then .ok ⟨5, 7⟩
    else if p = "/etc/passwd".toList then .ok ⟨2, 9⟩
    else if p = "/srv/index.html/x".toList then .error .other
    else .error .notExist
  ReadFile := fun p =>
    if p = "/srv/index.html".toList then some [104, 101, 108, 108, 111]
    else if p = "/etc/passwd".toList then some [114, 58]
    else none
  Now := 3
  FormatTime := fun t => "T".toList ++ FormatInt t
  MIMETypeByExtension := fun e => "mime".toList ++ e

/-- The last of the header lines that, once trimmed, starts with `Connection`. -/
def lastConnection (hdrs : List Str) : Option Str :=
  ((hdrs.map TrimSpace).filter (fun l => startsWith l "Connection".toList)).getLast?

/-- The text after the first space of the line is exactly `close`. -/
def asksClose (line : Str) : Bool := (SplitN line ' ' 2)[1]? == some "close".toList

/-- The last of the header lines that, once trimmed, starts with `Host`. -/
def lastHost (hdrs : List Str) : Option Str :=
  ((hdrs.map TrimSpace).filter (fun l => startsWith l "Host".toList)).getLast?

/-! ## Lemmas on lists of characters -/

theorem span_sep (sep : Char) (a rest : Str) (ha : ∀ c ∈ a, c ≠ sep) :
    (a ++ sep :: rest).span (fun c => c != sep) = (a, sep :: rest) := by
  induction a with
  | nil => simp [List.span, List.span.loop]
  | cons x xs ih =>
    have hx : x ≠ sep := ha x (List.mem_cons_self _ _)
    have ih2 := ih (fun c hc => ha c (List.mem_cons_of_mem _ hc))
    have hb : (x != sep) = true := by simpa using hx
    rw [List.span_eq_take_drop] at ih2 ⊢
    simp only [List.cons_append, List.takeWhile_cons, List.dropWhile_cons, hb, if_true]
    simp only [Prod.mk.injEq] at ih2
    rw [ih2.1, ih2.2]

theorem span_nosep (sep : Char) (a : Str) (ha : ∀ c ∈ a, c ≠ sep) :
    a.span (fun c => c != sep) = (a, []) := by
  rw [List.span_eq_take_drop]
  have h1 : a.takeWhile (fun c => c != sep) = a := by
    rw [List.takeWhile_eq_self_iff]; intro c hc; simpa using ha c hc
  have h2 : a.dropWhile (fun c => c != sep) = [] := by
    rw [List.dropWhile_eq_nil_iff]; intro c hc; simpa using ha c hc
  rw [h1, h2]

theorem dropWhile_append_stop (p : Char → Bool) (a : Str) (x : Char) (l : Str) (hx : p x = false) :
    (a ++ x :: l).dropWhile p = a.dropWhile p ++ x :: l := by
  induction a with
  | nil => simp [List.dropWhile, hx]
  | cons y ys ih =>
    by_cases hy : p y = true
    · simp [List.dropWhile, hy, ih]
    · simp [List.dropWhile, hy]

theorem rdropWhile_append_stop (p : Char → Bool) (a : Str) (x : Char) (l : Str) (hx : p x = false) :
    (a ++ x :: l).rdropWhile p = a ++ x :: l.rdropWhile p := by
  unfold List.rdropWhile
  rw [List.reverse_append, List.reverse_cons, List.append_assoc, List.singleton_append,
    dropWhile_append_stop p _ x _ hx]
  simp

theorem dropWhile_snoc (p : Char → Bool) (r : Str) (x : Char) :
    (r ++ [x]).dropWhile p = if r.dropWhile p = [] then [x].dropWhile p else r.dropWhile p ++ [x] := by
  induction r with
  | nil => simp
  | cons y ys ih =>
    by_cases hy : p y = true
    · simp only [List.cons_append, List.dropWhile_cons, hy, if_true, ih]
    · simp [List.dropWhile, hy]

theorem rdropWhile_cons (p : Char → Bool) (x : Char) (l : Str) :
    (x :: l).rdropWhile p = if l.rdropWhile p = [] then (if p x then [] else [x]) else x :: l.rdropWhile p := by
  unfold List.rdropWhile
  rw [List.reverse_cons, dropWhile_snoc]
  by_cases h : l.reverse.dropWhile p = []
  · simp [h, List.dropWhile]
    by_cases hx : p x = true <;> simp [hx]
  · simp [h]

theorem dropWhile_rdropWhile_comm (p : Char → Bool) (l : Str) :
    (l.rdropWhile p).dropWhile p = (l.dropWhile p).rdropWhile p := by
  induction l with
  | nil => simp
  | cons x xs ih =>
    rw [rdropWhile_cons]
    by_cases hx : p x = true
    · simp only [hx, if_true, List.dropWhile_cons]
      by_cases h : xs.rdropWhile p = []
      · simp only [h, if_true, List.dropWhile_nil]
        rw [← ih, h]; rfl
      · simp only [h, if_false, List.dropWhile_cons, hx, if_true]
        exact ih
    · have hx2 : p x = false := by simpa using hx
      simp only [hx2, List.dropWhile_cons]
      by_cases h : xs.rdropWhile p = []
      · simp [h, List.dropWhile, hx2, rdropWhile_cons]
      · simp [h, List.dropWhile, hx2, rdropWhile_cons]

theorem rdropWhile_idem (p : Char → Bool) (l : Str) :
    (l.rdropWhile p).rdropWhile p = l.rdropWhile p := by
  unfold List.rdropWhile
  simp [List.dropWhile_idempotent]

theorem isPrefixOf_of_append_stop (pre a : Str) (c : Char) (w : Str) (hc : c ∉ pre)
    (h : pre.isPrefixOf (a ++ c :: w) = true) : pre.isPrefixOf a = true := by
  induction pre generalizing a with
  | nil => simp
  | cons x xs ih =>
    cases a with
    | nil =>
      simp only [List.nil_append, List.isPrefixOf, Bool.and_eq_true, beq_iff_eq] at h
      exact absurd (h.1 ▸ List.mem_cons_self x xs) hc
    | cons y ys =>
      simp only [List.cons_append, List.isPrefixOf, Bool.and_eq_true, beq_iff_eq] at h ⊢
      exact ⟨h.1, ih ys (fun hm => hc (List.mem_cons_of_mem _ hm)) h.2⟩

theorem isPrefixOf_rdropWhile (p : Char → Bool) (pre a : Str) (hp : ∀ x ∈ pre, p x = false)
    (h : pre.isPrefixOf a = true) : pre.isPrefixOf (a.rdropWhile p) = true := by
  induction pre generalizing a with
  | nil => simp
  | cons x xs ih =>
    cases a with
    | nil => simp [List.isPrefixOf] at h
    | cons y ys =>
      simp only [List.isPrefixOf, Bool.and_eq_true, beq_iff_eq] at h
      have hy : p y = false := h.1 ▸ hp x (List.mem_cons_self _ _)
      have := rdropWhile_append_stop p [] y ys hy
      simp only [List.nil_append] at this
      rw [this]
      simp only [List.isPrefixOf, Bool.and_eq_true, beq_iff_eq]
      exact ⟨h.1, ih ys (fun z hz => hp z (List.mem_cons_of_mem _ hz)) h.2⟩

theorem TrimSpace_fixed (h : Str) (hh : TrimSpace h = h) :
    h.dropWhile isSpace = h ∧ h.rdropWhile isSpace = h := by
  have h1 : (h.dropWhile isSpace).rdropWhile isSpace <+: h.dropWhile isSpace :=
    List.rdropWhile_prefix _ _
  have h2 : h.dropWhile isSpace <:+ h := List.dropWhile_suffix _
  have hlen : h.length ≤ (h.dropWhile isSpace).length := by
    have := h1.length_le
    unfold TrimSpace at hh
    rw [hh] at this
    exact this
  have e1 : h.dropWhile isSpace = h := h2.eq_of_length (le_antisymm h2.length_le hlen)
  refine ⟨e1, ?_⟩
  unfold TrimSpace at hh
  rw [e1] at hh
  exact hh

theorem TrimSpace_dropWhile (k : Str) : TrimSpace (k.dropWhile isSpace) = TrimSpace k := by
  unfold TrimSpace
  rw [List.dropWhile_idempotent]

theorem TrimSpace_rdropWhile (v : Str) : TrimSpace (v.rdropWhile isSpace) = TrimSpace v := by
  unfold TrimSpace
  rw [dropWhile_rdropWhile_comm, rdropWhile_idem]

theorem TrimSpace_nil : TrimSpace [] = [] := by decide

theorem forbidden_toUpper (c : Char) (hc : forbiddenChars.contains c = false) :
    forbiddenChars.contains c.toUpper = false := by
  unfold Char.toUpper
  by_cases h : c.toNat ≥ 97 ∧ c.toNat ≤ 122
  · simp only [h, and_self, if_true]
    obtain ⟨h1, h2⟩ := h
    generalize c.toNat = n at h1 h2
    interval_cases n <;> decide
  · simp only [h, if_false]; exact hc

theorem forbidden_toLower (c : Char) (hc : forbiddenChars.contains c = false) :
    forbiddenChars.contains c.toLower = false := by
  unfold Char.toLower
  by_cases h : c.toNat ≥ 65 ∧ c.toNat ≤ 90
  · simp only [h, and_self, if_true]
    obtain ⟨h1, h2⟩ := h
    generalize c.toNat = n at h1 h2
    interval_cases n <;> decide
  · simp only [h, if_false]; exact hc

theorem ContainsAny_canonAux (up : Bool) (s : Str) (hs : ContainsAny s forbiddenChars = false) :
    ContainsAny (canonAux up s) forbiddenChars = false := by
  induction s generalizing up with
  | nil => simp [canonAux, ContainsAny]
  | cons c cs ih =>
    unfold ContainsAny at hs ih ⊢
    simp only [List.any_cons, Bool.or_eq_false_iff] at hs
    simp only [canonAux, List.any_cons, Bool.or_eq_false_iff]
    refine ⟨?_, ih _ hs.2⟩
    cases up
    · simpa using forbidden_toLower c hs.1
    · simpa using forbidden_toUpper c hs.1

theorem ContainsAny_sublist (s t : Str) (chars : Str) (hst : s.Sublist t)
    (ht : ContainsAny t chars = false) : ContainsAny s chars = false := by
  unfold ContainsAny at ht ⊢
  rw [List.any_eq_false] at ht ⊢
  intro x hx
  exact ht x (hst.subset hx)

theorem TrimSpace_sublist (s : Str) : (TrimSpace s).Sublist s :=
  ((List.rdropWhile_prefix _ _).sublist).trans (List.dropWhile_suffix _).sublist

theorem ContainsAny_mem (s chars : Str) (c : Char) (hs : ContainsAny s chars = false)
    (hc : c ∈ chars) : c ∉ s := by
  unfold ContainsAny at hs
  rw [List.any_eq_false] at hs
  intro hm
  have := hs c hm
  simp [hc] at this

theorem rdropWhile_append_fixed (p : Char → Bool) (a h : Str) (hne : h ≠ [])
    (hh : h.rdropWhile p = h) : (a ++ h).rdropWhile p = a ++ h := by
  rw [List.rdropWhile_eq_self_iff] at hh ⊢
  intro hl
  rw [List.getLast_append_of_ne_nil hne]
  exact hh hne

theorem TrimSpace_headerLine (k v : Str) :
    TrimSpace (headerLine (k, v)) =
      k.dropWhile isSpace ++ ':' :: (' ' :: v).rdropWhile isSpace := by
  have e : headerLine (k, v) = k ++ ':' :: ' ' :: v := by
    simp [headerLine]
  rw [e]
  unfold TrimSpace
  rw [dropWhile_append_stop isSpace k ':' _ (by decide),
    rdropWhile_append_stop isSpace _ ':' _ (by decide)]

theorem SplitN_two (a w : Str) (sep : Char) (ha : ∀ c ∈ a, c ≠ sep) :
    SplitN (a ++ sep :: w) sep 2 = [a, w] := by
  simp only [SplitN, span_sep sep a w ha]

theorem readHeaders_headerLine (pending : Str) (fail : Err) (k v : Str) (rest : List Str)
    (req : Request) (hk : ContainsAny k forbiddenChars = false)
    (hH : startsWith (TrimSpace k) "Host".toList = false)
    (hC : startsWith (TrimSpace k) "Connection".toList = false) :
    readHeaders pending fail (headerLine (k, v) :: rest) req =
      readHeaders pending fail rest
        { req with Header := req.Header.insert (CanonicalHeaderKey (TrimSpace k)) (TrimSpace v) } := by
  have hcolon : ∀ c ∈ k.dropWhile isSpace, c ≠ ':' := by
    intro c hc hcc
    have hm : ':' ∈ k := (List.dropWhile_suffix _).subset (hcc ▸ hc)
    exact ContainsAny_mem k forbiddenChars ':' hk (by decide) hm
  have f2 : k.dropWhile isSpace ++ ':' :: (' ' :: v).rdropWhile isSpace ≠ [] := by simp
  have f3 : startsWith (k.dropWhile isSpace ++ ':' :: (' ' :: v).rdropWhile isSpace)
      "Host".toList = false := by
    by_contra hcon
    have h1 : startsWith (k.dropWhile isSpace ++ ':' :: (' ' :: v).rdropWhile isSpace)
      "Host".toList = true := by simpa using hcon
    have h2 := isPrefixOf_of_append_stop _ _ ':' _ (by decide) h1
    have h3 := isPrefixOf_rdropWhile isSpace _ _ (by decide) h2
    unfold startsWith TrimSpace at hH
    rw [h3] at hH
    exact Bool.noConfusion hH
  have f4 : startsWith (k.dropWhile isSpace ++ ':' :: (' ' :: v).rdropWhile isSpace)
      "Connection".toList = false := by
    by_contra hcon
    have h1 : startsWith (k.dropWhile isSpace ++ ':' :: (' ' :: v).rdropWhile isSpace)
      "Connection".toList = true := by simpa using hcon
    have h2 := isPrefixOf_of_append_stop _ _ ':' _ (by decide) h1
    have h3 := isPrefixOf_rdropWhile isSpace _ _ (by decide) h2
    unfold startsWith TrimSpace at hC
    rw [h3] at hC
    exact Bool.noConfusion hC
  have f5 : sepHeaderline (k.dropWhile isSpace ++ ':' :: (' ' :: v).rdropWhile isSpace) =
      .ok (CanonicalHeaderKey (TrimSpace k), TrimSpace v) := by
    unfold sepHeaderline
    rw [SplitN_two _ _ ':' hcolon]
    simp only [TrimSpace_dropWhile, TrimSpace_rdropWhile]
    have : TrimSpace (' ' :: v) = TrimSpace v := by
      unfold TrimSpace
      rw [List.dropWhile_cons_of_pos (by decide)]
    rw [this]
  have f6 : ContainsAny (CanonicalHeaderKey (TrimSpace k)) forbiddenChars = false :=
    ContainsAny_canonAux true _ (ContainsAny_sublist _ _ _ (TrimSpace_sublist k) hk)
  rw [readHeaders]
  simp only [TrimSpace_headerLine, f2, f3, f4, f5, f6, if_false, Bool.false_eq_true]

theorem readHeaders_headerLines (pending : Str) (fail : Err) (hdrs : List (Str × Str))
    (rest : List Str) (req : Request) (hhost : req.Host ≠ [])
    (hk : ∀ kv ∈ hdrs, ContainsAny kv.1 forbiddenChars = false ∧
      startsWith (TrimSpace kv.1) "Host".toList = false ∧
      startsWith (TrimSpace kv.1) "Connection".toList = false) :
    readHeaders pending fail (hdrs.map headerLine ++ [[]] ++ rest) req =
      some (⟨some { req with Header := hdrs.foldl (fun m kv =>
          m.insert (CanonicalHeaderKey (TrimSpace kv.1)) (TrimSpace kv.2)) req.Header },
        true, none⟩, ⟨rest, pending, fail⟩) := by
  induction hdrs generalizing req with
  | nil =>
    simp only [List.map_nil, List.nil_append, List.singleton_append, List.foldl_nil]
    rw [readHeaders]
    simp [TrimSpace_nil, hhost]
  | cons kv kvs ih =>
    obtain ⟨k, v⟩ := kv
    have h1 := hk (k, v) (List.mem_cons_self _ _)
    simp only [List.map_cons, List.cons_append, List.foldl_cons]
    rw [readHeaders_headerLine pending fail k v _ req h1.1 h1.2.1 h1.2.2]
    exact ih _ hhost (fun kv hkv => hk kv (List.mem_cons_of_mem _ hkv))

theorem parseStartLine_get (p : Str) (hps : ' ' ∉ p) :
    parseStartLine ("GET ".toList ++ p ++ " HTTP/1.1".toList) =
      .ok ("GET".toList, p, "HTTP/1.1".toList) := by
  have e : "GET ".toList ++ p ++ " HTTP/1.1".toList =
      "GET".toList ++ ' ' :: (p ++ ' ' :: "HTTP/1.1".toList) := by
    simp
  have h1 : ∀ c ∈ "GET".toList, c ≠ ' ' := by decide
  have h2 : ∀ c ∈ p, c ≠ ' ' := fun c hc hcc => hps (hcc ▸ hc)
  rw [e]
  unfold parseStartLine
  simp only [SplitN, span_sep ' ' _ _ h1, span_sep ' ' _ _ h2]

theorem readHeaders_hostLine (pending : Str) (fail : Err) (h : Str) (rest : List Str)
    (req : Request) (hh : h ≠ []) (hht : TrimSpace h = h) :
    readHeaders pending fail (("Host: ".toList ++ h) :: rest) req =
      readHeaders pending fail rest { req with Host := h } := by
  have e : "Host: ".toList ++ h = "Host:".toList ++ ' ' :: h := by simp
  have t : TrimSpace ("Host: ".toList ++ h) = "Host:".toList ++ ' ' :: h := by
    rw [e]
    unfold TrimSpace
    have d : ("Host:".toList ++ ' ' :: h).dropWhile isSpace = "Host:".toList ++ ' ' :: h := by
      simp [List.dropWhile, isSpace]
    rw [d]
    have := rdropWhile_append_fixed isSpace ("Host: ".toList) h hh (TrimSpace_fixed h hht).2
    simpa using this
  have s : SplitN ("Host:".toList ++ ' ' :: h) ' ' 2 = ["Host:".toList, h] :=
    SplitN_two _ _ ' ' (by decide)
  have pre : startsWith ("Host:".toList ++ ' ' :: h) "Host".toList = true := by
    simp [startsWith, List.isPrefixOf]
  rw [readHeaders]
  simp only [t, s, pre]
  simp

/-- The header map built from a list of headers answers a lookup with the
value of the last header whose canonical key is the one looked up. -/
theorem lookup_headerMapOf (hdrs : List (Str × Str)) (key : Str) :
    (headerMapOf hdrs).lookup key =
      (hdrs.reverse.find? (fun kv => CanonicalHeaderKey (TrimSpace kv.1) == key)).map
        (fun kv => TrimSpace kv.2) := by
  unfold headerMapOf
  induction hdrs using List.reverseRecOn with
  | nil => simp
  | append_singleton kvs kv ih =>
    rw [List.foldl_append, List.reverse_append]
    simp only [List.foldl_cons, List.foldl_nil, List.reverse_cons, List.reverse_nil,
      List.nil_append, List.singleton_append, List.find?_cons]
    by_cases hkey : CanonicalHeaderKey (TrimSpace kv.1) = key
    · subst hkey
      simp
    · have hb : (CanonicalHeaderKey (TrimSpace kv.1) == key) = false := by simpa using hkey
      rw [hb, AList.lookup_insert_ne (Ne.symm hkey)]
      exact ih

/-! ## C1: a well-formed GET request is parsed into the request it spells -/

/-- C1 as stated fails: with the header key `"\tHost"` (a tab, then `Host`),
which contains no forbidden character and does not start with `Host` or
`Connection`, the line is trimmed before the prefix test, so it is taken as the
Host header: the request returned has Host `evil` instead of `h`, and its
Header map is empty instead of holding the key `Host`. -/
theorem C1_counterexample :
    startsWith "/".toList "/".toList = true ∧ ' ' ∉ "/".toList ∧
    "h".toList ≠ [] ∧ TrimSpace "h".toList = "h".toList ∧
    (∀ kv ∈ [("\tHost".toList, "evil".toList)],
      ContainsAny kv.1 forbiddenChars = false ∧ startsWith kv.1 "Host".toList = false ∧
      startsWith kv.1 "Connection".toList = false) ∧
    ∃ req : Request,
      ReadRequest ⟨requestLines "/".toList "h".toList [("\tHost".toList, "evil".toList)],
          [], .eof⟩ = some (⟨some req, true, none⟩, ⟨[], [], .eof⟩) ∧
      req.Host = "evil".toList ∧ req.Host ≠ "h".toList ∧
      req.Header.lookup "Host".toList = none ∧
      (headerMapOf [("\tHost".toList, "evil".toList)]).lookup "Host".toList =
        some "evil".toList :=
  ⟨by decide, by decide, by decide, by decide, by decide,
    { Method := "GET".toList, URL := "/".toList, Proto := "HTTP/1.1".toList,
      Header := ∅, Host := "evil".toList, Close := false },
    rfl, rfl, by decide, rfl, by decide⟩

/-- C1 (amended): for every url `p` that begins with `/` and contains no space,
every non-empty host `h` without leading or trailing white space, and every
list of header lines `k: v` whose keys contain no forbidden character and,
once trimmed, do not start with `Host` or `Connection`, `ReadRequest` on the
lines `GET p HTTP/1.1`, `Host: h`, the header lines and the empty line returns
err = nil, bytesReceived = true and the request with Method `GET`, URL `p`,
Proto `HTTP/1.1`, Host `h`, Close = false and the Header map from
`CanonicalHeaderKey (trim k)` to `trim v`, in which the last occurrence of a
canonical key decides its value; the lines after the request stay unread. -/
theorem ReadRequest_wellformed (p h : Str) (hdrs : List (Str × Str)) (rest : List Str)
    (pending : Str) (fail : Err)
    (hp : startsWith p "/".toList = true) (hps : ' ' ∉ p)
    (hh : h ≠ []) (hht : TrimSpace h = h)
    (hk : ∀ kv ∈ hdrs, ContainsAny kv.1 forbiddenChars = false ∧
      startsWith (TrimSpace kv.1) "Host".toList = false ∧
      startsWith (TrimSpace kv.1) "Connection".toList = false) :
    ReadRequest ⟨requestLines p h hdrs ++ rest, pending, fail⟩ =
      some (⟨some { Method := "GET".toList, URL := p, Proto := "HTTP/1.1".toList,
                    Header := headerMapOf hdrs, Host := h, Close := false }, true, none⟩,
            ⟨rest, pending, fail⟩) ∧
    ∀ key, (headerMapOf hdrs).lookup key =
      (hdrs.reverse.find? (fun kv => CanonicalHeaderKey (TrimSpace kv.1) == key)).map
        (fun kv => TrimSpace kv.2) := by
  refine ⟨?_, lookup_headerMapOf hdrs⟩
  obtain ⟨c, p', rfl⟩ : ∃ c p', p = c :: p' := by
    cases p with
    | nil => simp [startsWith, List.isPrefixOf] at hp
    | cons c p' => exact ⟨c, p', rfl⟩
  have hc : c = '/' := by
    simp [startsWith, List.isPrefixOf] at hp
    exact hp.symm
  subst hc
  unfold ReadRequest ReadLine
  simp only [requestLines, List.cons_append, parseStartLine_get _ hps]
  have hv : validMethod "GET".toList "HTTP/1.1".toList = true := by decide
  simp only [hv, Bool.not_true, Bool.false_eq_true, if_false]
  rw [readHeaders_hostLine pending fail h _ _ hh hht]
  have := readHeaders_headerLines pending fail hdrs rest
    { Method := "GET".toList, URL := '/' :: p', Proto := "HTTP/1.1".toList, Header := ∅,
      Host := h, Close := false } hh hk
  simpa [headerMapOf] using this

/-- C1 (amended), at a concrete request with two spellings of one header key. -/
theorem ReadRequest_wellformed_witness :
    ReadRequest ⟨requestLines "/a".toList "x".toList
        [("content-type".toList, "a b ".toList), ("CONTENT-TYPE".toList, "z".toList)] ++ [],
        [], .eof⟩ =
      some (⟨some { Method := "GET".toList, URL := "/a".toList, Proto := "HTTP/1.1".toList,
                    Header := headerMapOf
                      [("content-type".toList, "a b ".toList), ("CONTENT-TYPE".toList, "z".toList)],
                    Host := "x".toList, Close := false }, true, none⟩,
            ⟨[], [], .eof⟩) ∧
    ∀ key, (headerMapOf
        [("content-type".toList, "a b ".toList), ("CONTENT-TYPE".toList, "z".toList)]).lookup key =
      (([("content-type".toList, "a b ".toList), ("CONTENT-TYPE".toList, "z".toList)] :
          List (Str × Str)).reverse.find?
        (fun kv => CanonicalHeaderKey (TrimSpace kv.1) == key)).map (fun kv => TrimSpace kv.2) :=
  ReadRequest_wellformed "/a".toList "x".toList
    [("content-type".toList, "a b ".toList), ("CONTENT-TYPE".toList, "z".toList)] [] [] .eof
    (by decide) (by decide) (by decide) (by decide) (by decide)

/-! ## C2, C3: what `ReadRequest` returns -/

theorem readHeaders_request (pending : Str) (fail : Err) (lines : List Str) (req0 : Request)
    (r : ReadResult) (br : Reader) (req : Request)
    (h : readHeaders pending fail lines req0 = some (r, br)) (hr : r.req = some req) :
    req.Method = req0.Method ∧ req.URL = req0.URL ∧ req.Proto = req0.Proto ∧ req.Host ≠ [] ∧
    (req0.Host = [] → ∃ raw ∈ lines, startsWith (TrimSpace raw) "Host".toList = true) := by
  induction lines generalizing req0 with
  | nil =>
    rw [readHeaders] at h
    simp only [Option.some.injEq, Prod.mk.injEq] at h
    rw [← h.1] at hr
    simp at hr
  | cons raw rest ih =>
    rw [readHeaders] at h
    split_ifs at h with h1 h2 h3 h4
    · simp only [Option.some.injEq, Prod.mk.injEq] at h
      rw [← h.1] at hr; simp at hr
    · simp only [Option.some.injEq, Prod.mk.injEq] at h
      rw [← h.1] at hr
      simp only [Option.some.injEq] at hr
      subst hr
      exact ⟨rfl, rfl, rfl, h2, fun h0 => absurd h0 h2⟩
    · split at h
      · exact Option.noConfusion h
      · have := ih _ h
        exact ⟨this.1, this.2.1, this.2.2.1, this.2.2.2.1,
          fun _ => ⟨raw, List.mem_cons_self _ _, h3⟩⟩
    · split at h
      · exact Option.noConfusion h
      · have := ih _ h
        refine ⟨this.1, this.2.1, this.2.2.1, this.2.2.2.1, fun h0 => ?_⟩
        obtain ⟨x, hx, hx2⟩ := this.2.2.2.2 h0
        exact ⟨x, List.mem_cons_of_mem _ hx, hx2⟩
    · split at h
      · simp only [Option.some.injEq, Prod.mk.injEq] at h
        rw [← h.1] at hr; simp at hr
      · split_ifs at h with h5
        · simp only [Option.some.injEq, Prod.mk.injEq] at h
          rw [← h.1] at hr; simp at hr
        · have := ih _ h
          refine ⟨this.1, this.2.1, this.2.2.1, this.2.2.2.1, fun h0 => ?_⟩
          obtain ⟨x, hx, hx2⟩ := this.2.2.2.2 h0
          exact ⟨x, List.mem_cons_of_mem _ hx, hx2⟩

theorem readHeaders_shape (pending : Str) (fail : Err) (lines : List Str) (req0 : Request)
    (r : ReadResult) (br : Reader) (h : readHeaders pending fail lines req0 = some (r, br)) :
    ((∃ req, r.req = some req) ∧ r.bytesReceived = true ∧ r.err = none) ∨
    (r.req = none ∧ ∃ e, r.err = some e) := by
  induction lines generalizing req0 with
  | nil =>
    rw [readHeaders] at h
    simp only [Option.some.injEq, Prod.mk.injEq] at h
    rw [← h.1]
    exact Or.inr ⟨rfl, _, rfl⟩
  | cons raw rest ih =>
    rw [readHeaders] at h
    split_ifs at h with h1 h2 h3 h4
    · simp only [Option.some.injEq, Prod.mk.injEq] at h
      rw [← h.1]; exact Or.inr ⟨rfl, _, rfl⟩
    · simp only [Option.some.injEq, Prod.mk.injEq] at h
      rw [← h.1]; exact Or.inl ⟨⟨_, rfl⟩, rfl, rfl⟩
    · split at h
      · exact Option.noConfusion h
      · exact ih _ h
    · split at h
      · exact Option.noConfusion h
      · exact ih _ h
    · split at h
      · simp only [Option.some.injEq, Prod.mk.injEq] at h
        rw [← h.1]; exact Or.inr ⟨rfl, _, rfl⟩
      · split_ifs at h with h5
        · simp only [Option.some.injEq, Prod.mk.injEq] at h
          rw [← h.1]; exact Or.inr ⟨rfl, _, rfl⟩
        · exact ih _ h

theorem ReadRequest_fields (br : Reader) (r : ReadResult) (br' : Reader) (req : Request)
    (h : ReadRequest br = some (r, br')) (hr : r.req = some req) :
    req.Method = "GET".toList ∧ req.Proto = "HTTP/1.1".toList ∧
    startsWith req.URL "/".toList = true ∧ req.Host ≠ [] ∧
    ∃ line rest, br.lines = line :: rest ∧
      parseStartLine line = .ok ("GET".toList, req.URL, "HTTP/1.1".toList) ∧
      ∃ raw ∈ rest, startsWith (TrimSpace raw) "Host".toList = true := by
  unfold ReadRequest ReadLine at h
  obtain ⟨lines, pending, fail⟩ := br
  cases lines with
  | nil =>
    simp only [Option.some.injEq, Prod.mk.injEq] at h
    rw [← h.1] at hr; simp at hr
  | cons line rest =>
    simp only at h
    split at h
    · simp only [Option.some.injEq, Prod.mk.injEq] at h
      rw [← h.1] at hr; simp at hr
    · rename_i method url proto hparse
      split_ifs at h with hv
      · simp only [Option.some.injEq, Prod.mk.injEq] at h
        rw [← h.1] at hr; simp at hr
      · split at h
        · exact Option.noConfusion h
        · rename_i c url'
          split_ifs at h with hc
          · simp only [Option.some.injEq, Prod.mk.injEq] at h
            rw [← h.1] at hr; simp at hr
          · have hm := readHeaders_request _ _ _ _ r br' req h hr
            obtain ⟨h1, h2, h3, h4, h5⟩ := hm
            have hc2 : c = '/' := by simpa using hc
            have hv2 : method = "GET".toList ∧ proto = "HTTP/1.1".toList := by
              simpa [validMethod] using hv
            refine ⟨h1.trans hv2.1, h3.trans hv2.2, ?_, h4, line, rest, rfl, ?_, h5 rfl⟩
            · rw [h2, hc2]; simp [startsWith, List.isPrefixOf]
            · rw [hparse, h2, hv2.1, hv2.2]

theorem shape_of_ReadRequest (br : Reader) (r : ReadResult) (br' : Reader)
    (h : ReadRequest br = some (r, br')) :
    (((∃ req, r.req = some req) ∧ r.bytesReceived = true ∧ r.err = none) ∨
      (r.req = none ∧ ∃ e, r.err = some e)) ∧
    ¬ ((∃ req, r.req = some req) ∧ ∃ e, r.err = some e) ∧
    ¬ (r.req = none ∧ r.err = none) := by
  have key : ((∃ req, r.req = some req) ∧ r.bytesReceived = true ∧ r.err = none) ∨
      (r.req = none ∧ ∃ e, r.err = some e) := by
    unfold ReadRequest ReadLine at h
    obtain ⟨lines, pending, fail⟩ := br
    cases lines with
    | nil =>
      simp only [Option.some.injEq, Prod.mk.injEq] at h
      rw [← h.1]; exact Or.inr ⟨rfl, _, rfl⟩
    | cons line rest =>
      simp only at h
      split at h
      · simp only [Option.some.injEq, Prod.mk.injEq] at h
        rw [← h.1]; exact Or.inr ⟨rfl, _, rfl⟩
      · split_ifs at h with hv
        · simp only [Option.some.injEq, Prod.mk.injEq] at h
          rw [← h.1]; exact Or.inr ⟨rfl, _, rfl⟩
        · split at h
          · exact Option.noConfusion h
          · split_ifs at h with hc
            · simp only [Option.some.injEq, Prod.mk.injEq] at h
              rw [← h.1]; exact Or.inr ⟨rfl, _, rfl⟩
            · exact readHeaders_shape _ _ _ _ r br' h
  refine ⟨key, ?_, ?_⟩
  · rintro ⟨⟨req, hreq⟩, e, he⟩
    rcases key with ⟨_, _, h3⟩ | ⟨h1, _⟩
    · rw [h3] at he; exact Option.noConfusion he
    · rw [h1] at hreq; exact Option.noConfusion hreq
  · rintro ⟨h1, h2⟩
    rcases key with ⟨⟨req, hreq⟩, _, _⟩ | ⟨_, e, he⟩
    · rw [h1] at hreq; exact Option.noConfusion hreq
    · rw [h2] at he; exact Option.noConfusion he

/-- C3: the triple `ReadRequest` returns has one of two shapes: a request,
bytesReceived = true and no error; or no request and an error. It never has
both a request and an error, and never neither. -/
theorem ReadRequest_shape (br : Reader) (r : ReadResult) (br' : Reader)
    (h : ReadRequest br = some (r, br')) :
    (((∃ req, r.req = some req) ∧ r.bytesReceived = true ∧ r.err = none) ∨
      (r.req = none ∧ ∃ e, r.err = some e)) ∧
    ¬ ((∃ req, r.req = some req) ∧ ∃ e, r.err = some e) ∧
    ¬ (r.req = none ∧ r.err = none) :=
  shape_of_ReadRequest br r br' h

/-- C3, at a stream that ends after the start line: no request, an error. -/
theorem ReadRequest_shape_witness :
    ReadRequest ⟨["GET / HTTP/1.1".toList], [], .eof⟩ =
      some (⟨none, true, some .eof⟩, ⟨[], [], .eof⟩) ∧
    (((∃ req, (⟨none, true, some Err.eof⟩ : ReadResult).req = some req) ∧
        (⟨none, true, some Err.eof⟩ : ReadResult).bytesReceived = true ∧
        (⟨none, true, some Err.eof⟩ : ReadResult).err = none) ∨
      ((⟨none, true, some Err.eof⟩ : ReadResult).req = none ∧
        ∃ e, (⟨none, true, some Err.eof⟩ : ReadResult).err = some e)) ∧
    ¬ ((∃ req, (⟨none, true, some Err.eof⟩ : ReadResult).req = some req) ∧
        ∃ e, (⟨none, true, some Err.eof⟩ : ReadResult).err = some e) ∧
    ¬ ((⟨none, true, some Err.eof⟩ : ReadResult).req = none ∧
        (⟨none, true, some Err.eof⟩ : ReadResult).err = none) :=
  ⟨rfl, ReadRequest_shape ⟨["GET / HTTP/1.1".toList], [], .eof⟩ ⟨none, true, some .eof⟩
    ⟨[], [], .eof⟩ rfl⟩

/-! ## C4: a failed read is answered with 400 or with silence, then the connection is closed -/

theorem utf8_append (a b : Str) : utf8 (a ++ b) = utf8 a ++ utf8 b := by
  simp [utf8, List.flatMap_append]

theorem utf8_crlf_ne_nil (a : Str) : utf8 (a ++ "\r\n".toList) ≠ [] := by
  rw [utf8_append]
  have : utf8 "\r\n".toList = [13, 10] := by decide
  rw [this]
  simp

theorem Conn_Write_open (c : Conn) (b : List Nat) (hc : c.closed = false) :
    c.Write b = (⟨false, c.out ++ b⟩, none) := by
  unfold Conn.Write
  by_cases hb : b = []
  · subst hb
    obtain ⟨cl, o⟩ := c
    simp at hc
    simp [hc]
  · obtain ⟨cl, o⟩ := c
    simp at hc
    simp [hb, hc]

theorem badRequest_statusLine (env : Env) :
    (Response.zero.HandleBadRequest env).statusLine = "HTTP/1.1 400 Bad Request\r\n".toList := by
  show responseProto ++ " ".toList ++ FormatInt statusBadRequest ++ " ".toList ++
    statusText statusBadRequest ++ "\r\n".toList = _
  decide

theorem badRequest_headerString (env : Env) :
    (Response.zero.HandleBadRequest env).headerString =
      "Connection: close\r\n".toList ++ "Date: ".toList ++ env.FormatTime env.Now ++
        "\r\n".toList ++ "\r\n".toList := by
  have hk : sortStrings (Response.zero.HandleBadRequest env).Header.keys =
      ["Connection".toList, "Date".toList] := by
    unfold Response.HandleBadRequest
    simp only [AList.keys_insert, AList.keys_empty]
    decide
  unfold Response.headerString
  rw [hk]
  have h1 : (Response.zero.HandleBadRequest env).Header.lookup "Connection".toList =
      some "close".toList := by
    unfold Response.HandleBadRequest
    rw [AList.lookup_insert_ne (by decide), AList.lookup_insert]
  have h2 : (Response.zero.HandleBadRequest env).Header.lookup "Date".toList =
      some (env.FormatTime env.Now) := by
    unfold Response.HandleBadRequest
    rw [AList.lookup_insert]
  simp only [List.foldl_cons, List.foldl_nil, h1, h2, Option.getD_some]
  simp

theorem writeBadRequest_open (env : Env) (conn : Conn) (hc : conn.closed = false) :
    writeBadRequest env conn = (⟨false, conn.out ++ utf8 (badRequestText env)⟩, .ok) := by
  unfold writeBadRequest Response.Write Response.WriteStatusLine Response.WriteSortedHeaders
    Response.WriteBody
  rw [Conn_Write_open conn _ hc]
  simp only
  rw [Conn_Write_open _ _ rfl]
  simp only [badRequest_statusLine, badRequest_headerString]
  have hf : (Response.zero.HandleBadRequest env).FilePath = [] := rfl
  simp only [hf, if_true, badRequestText, utf8_append, List.append_assoc]

theorem respond_error (s : Server) (env : Env) (conn : Conn) (r : ReadResult) (e : Err)
    (hc : conn.closed = false) (he : r.err = some e) :
    (r.bytesReceived = true →
      s.respond env conn r = (⟨true, conn.out ++ utf8 (badRequestText env)⟩, .returned)) ∧
    (r.bytesReceived = false → (e = .eof ∨ e = .timeout) →
      s.respond env conn r = (⟨true, conn.out⟩, .returned)) := by
  obtain ⟨req, b, err⟩ := r
  simp only at he
  subst he
  constructor
  · intro hb
    simp only at hb
    subst hb
    unfold Server.respond
    simp only [writeBadRequest_open env conn hc, Option.any_some, Option.isSome_some,
      Bool.and_self, if_true, Conn.Close]
    split_ifs <;> rfl
  · intro hb hcase
    simp only at hb
    subst hb
    obtain ⟨cl, o⟩ := conn
    simp only at hc
    subst hc
    unfold Server.respond
    rcases hcase with rfl | rfl <;> simp [Err.isEOF, Err.isTimeout, Conn.Close]

/-- C4: in one round of `HandleConnection` on an open connection, when
`ReadRequest` returns an error: if bytesReceived is true (end of stream,
timeout or any other failure), exactly the bytes of a Bad Request response are
written (status line `HTTP/1.1 400 Bad Request`, the headers
`Connection: close` and `Date`, the blank line, no body), the connection is
closed and the handler returns; if the error is end of stream or a timeout and
bytesReceived is false, nothing is written, the connection is closed and the
handler returns. -/
theorem iteration_error (s : Server) (env : Env) (st : HState) (r : ReadResult) (br1 : Reader)
    (e : Err) (hc : st.conn.closed = false) (hread : ReadRequest st.br = some (r, br1))
    (he : r.err = some e) :
    (r.bytesReceived = true →
      s.iteration env st =
        { conn := ⟨true, st.conn.out ++ utf8 (badRequestText env)⟩, br := br1,
          reads := st.reads + 1, status := .returned }) ∧
    (r.bytesReceived = false → (e = .eof ∨ e = .timeout) →
      s.iteration env st =
        { conn := ⟨true, st.conn.out⟩, br := br1, reads := st.reads + 1,
          status := .returned }) := by
  have hd : st.conn.SetReadDeadline = none := by simp [Conn.SetReadDeadline, hc]
  obtain ⟨h1, h2⟩ := respond_error s env st.conn r e hc he
  constructor
  · intro hb
    unfold Server.iteration
    simp only [hd, hread, h1 hb]
  · intro hb hcase
    unfold Server.iteration
    simp only [hd, hread, h2 hb hcase]

/-- C4, at a connection on which the stream ends after the start line (a Bad
Request response is written) and at one on which it ends at once (silence). -/
theorem iteration_error_witness :
    (ReadRequest (⟨["GET / HTTP/1.1".toList], [], .eof⟩ : Reader) =
        some (⟨none, true, some .eof⟩, ⟨[], [], .eof⟩) ∧
      sampleServer.iteration sampleEnv
          ⟨⟨false, []⟩, ⟨["GET / HTTP/1.1".toList], [], .eof⟩, 0, .running⟩ =
        { conn := ⟨true, [] ++ utf8 (badRequestText sampleEnv)⟩, br := ⟨[], [], .eof⟩,
          reads := 0 + 1, status := .returned }) ∧
    (ReadRequest (⟨[], [], .timeout⟩ : Reader) =
        some (⟨none, false, some .timeout⟩, ⟨[], [], .timeout⟩) ∧
      sampleServer.iteration sampleEnv ⟨⟨false, []⟩, ⟨[], [], .timeout⟩, 0, .running⟩ =
        { conn := ⟨true, []⟩, br := ⟨[], [], .timeout⟩, reads := 0 + 1,
          status := .returned }) :=
  ⟨⟨rfl, (iteration_error sampleServer sampleEnv
      ⟨⟨false, []⟩, ⟨["GET / HTTP/1.1".toList], [], .eof⟩, 0, .running⟩
      ⟨none, true, some .eof⟩ ⟨[], [], .eof⟩ .eof rfl rfl rfl).1 rfl⟩,
   ⟨rfl, (iteration_error sampleServer sampleEnv
      ⟨⟨false, []⟩, ⟨[], [], .timeout⟩, 0, .running⟩
      ⟨none, false, some .timeout⟩ ⟨[], [], .timeout⟩ .timeout rfl rfl rfl).2 rfl
      (Or.inr rfl)⟩⟩

/-! ## C5: after a good response the handler closes or goes on -/

theorem Conn_Write_closed (c : Conn) (b : List Nat) : (c.Write b).1.closed = c.closed := by
  unfold Conn.Write
  split_ifs <;> rfl

theorem Conn_Write_out_of_closed (c : Conn) (b : List Nat) (hc : c.closed = true) :
    (c.Write b).1 = c := by
  unfold Conn.Write
  split_ifs <;> simp_all

theorem Response_Write_closed (res : Response) (env : Env) (w : Conn) :
    (res.Write env w).1.closed = w.closed := by
  unfold Response.Write Response.WriteStatusLine Response.WriteSortedHeaders Response.WriteBody
  have h1 := Conn_Write_closed w (utf8 res.statusLine)
  rcases hw1 : w.Write (utf8 res.statusLine) with ⟨w1, e1⟩
  rw [hw1] at h1
  cases e1 with
  | some e => exact h1
  | none =>
    simp only
    have h2 := Conn_Write_closed w1 (utf8 res.headerString)
    rcases hw2 : w1.Write (utf8 res.headerString) with ⟨w2, e2⟩
    rw [hw2] at h2
    cases e2 with
    | some e => simp only; exact h2.trans h1
    | none =>
      simp only
      split_ifs
      · exact h2.trans h1
      · cases hrf : env.ReadFile res.FilePath with
        | none => simp only; exact h2.trans h1
        | some data =>
          simp only
          have h3 := Conn_Write_closed w2 data
          rcases hw3 : w2.Write data with ⟨w3, e3⟩
          rw [hw3] at h3
          cases e3 with
          | none => simp only; exact h3.trans (h2.trans h1)
          | some e => simp only; split_ifs <;> exact h3.trans (h2.trans h1)

theorem HandleGoodRequest_fields (s : Server) (env : Env) (req : Request) (res : Response)
    (req1 : Request) (h : s.HandleGoodRequest env req = some (res, req1)) :
    req1.Close = req.Close ∧
    (res.StatusCode = statusOK ∨ res.StatusCode = statusNotFound) := by
  unfold Server.HandleGoodRequest at h
  simp only at h
  have hclose : (if endsWith req.URL "/".toList = true then
      { req with URL := req.URL ++ "index.html".toList } else req).Close = req.Close := by
    split_ifs <;> rfl
  split at h
  · simp only [Option.some.injEq, Prod.mk.injEq] at h
    rw [← h.1, ← h.2]
    exact ⟨hclose, Or.inr rfl⟩
  · simp only [Option.map_eq_some', Prod.mk.injEq] at h
    obtain ⟨res', hres, rfl, rfl⟩ := h
    refine ⟨hclose, Or.inl ?_⟩
    unfold Response.HandleOK at hres
    simp only at hres
    split at hres
    · exact Option.noConfusion hres
    · simp only [Option.some.injEq] at hres
      rw [← hres]

theorem loop_of_not_running (s : Server) (env : Env) (fuel : Nat) (st : HState)
    (h : st.status ≠ .running) : s.loop env fuel st = st := by
  cases fuel with
  | zero => rfl
  | succ n =>
    unfold Server.loop
    cases hs : st.status with
    | running => exact absurd hs h
    | returned => rfl
    | panicked => rfl

/-- C5: when a round of `HandleConnection` on an open connection has parsed a
request and written its response (200 or 404), the loop goes on with the
response written. If the request asked to close, the connection is closed and
whatever the loop does next is to return at once: `ReadRequest` is not called
again and nothing more is written. If it did not, the connection is left open
and the next round calls `ReadRequest` again. -/
theorem iteration_good (s : Server) (env : Env) (st : HState) (req : Request) (b : Bool)
    (br1 : Reader) (res : Response) (req1 : Request) (conn1 : Conn) (wr : WriteResult)
    (hc : st.conn.closed = false)
    (hread : ReadRequest st.br = some (⟨some req, b, none⟩, br1))
    (hgood : s.HandleGoodRequest env req = some (res, req1))
    (hwrite : res.Write env st.conn = (conn1, wr)) (hwr : wr ≠ .panic) :
    (res.StatusCode = statusOK ∨ res.StatusCode = statusNotFound) ∧
    (s.iteration env st).status = .running ∧ (s.iteration env st).br = br1 ∧
    (s.iteration env st).reads = st.reads + 1 ∧ (s.iteration env st).conn.out = conn1.out ∧
    (req.Close = true →
      (s.iteration env st).conn.closed = true ∧
      ∀ fuel, s.loop env (fuel + 1) (s.iteration env st) =
        { s.iteration env st with status := .returned }) ∧
    (req.Close = false →
      (s.iteration env st).conn.closed = false ∧
      (s.iteration env (s.iteration env st)).reads = (s.iteration env st).reads + 1) := by
  have hd : st.conn.SetReadDeadline = none := by simp [Conn.SetReadDeadline, hc]
  obtain ⟨hcl, hcode⟩ := HandleGoodRequest_fields s env req res req1 hgood
  have hurl := (ReadRequest_fields st.br _ br1 req hread rfl).2.2.1
  obtain ⟨c, u, hu⟩ : ∃ c u, req.URL = c :: u := by
    cases hq : req.URL with
    | nil => rw [hq] at hurl; simp [startsWith, List.isPrefixOf] at hurl
    | cons c u => exact ⟨c, u, rfl⟩
  have hcs : c = '/' := by
    rw [hu] at hurl
    simp [startsWith, List.isPrefixOf] at hurl
    exact hurl.symm
  have hconn1 : conn1.closed = false := by
    have := Response_Write_closed res env st.conn
    rw [hwrite] at this
    exact this.trans hc
  have hresp : s.respond env st.conn ⟨some req, b, none⟩ =
      (if req.Close then conn1.Close else conn1, .running) := by
    unfold Server.respond
    cases wr with
    | panic => exact absurd rfl hwr
    | ok =>
      simp only [Option.any_none, Option.isSome_none, Bool.false_and, Bool.false_eq_true,
        if_false, hu, hcs, bne_self_eq_false, hgood, hwrite, hcl]
    | err e =>
      simp only [Option.any_none, Option.isSome_none, Bool.false_and, Bool.false_eq_true,
        if_false, hu, hcs, bne_self_eq_false, hgood, hwrite, hcl]
  have hit : s.iteration env st =
      { conn := if req.Close then conn1.Close else conn1, br := br1, reads := st.reads + 1,
        status := .running } := by
    unfold Server.iteration
    simp only [hd, hread, hresp]
  rw [hit]
  refine ⟨hcode, rfl, rfl, rfl, ?_, ?_, ?_⟩
  · split_ifs <;> rfl
  · intro hclose
    simp only [hclose, if_true]
    refine ⟨rfl, fun fuel => ?_⟩
    unfold Server.loop
    simp only
    have : s.iteration env ⟨conn1.Close, br1, st.reads + 1, .running⟩ =
        ⟨conn1.Close, br1, st.reads + 1, .returned⟩ := by
      unfold Server.iteration
      simp [Conn.SetReadDeadline, Conn.Close]
    rw [this]
    exact loop_of_not_running s env fuel _ (by simp)
  · intro hopen
    simp only [hopen, Bool.false_eq_true, if_false]
    refine ⟨hconn1, ?_⟩
    unfold Server.iteration
    simp only [Conn.SetReadDeadline, hconn1, Bool.false_eq_true, if_false]
    cases ReadRequest br1 with
    | none => rfl
    | some p => rfl

/-- C5, at a request for a missing file that asks to close: after the 404 the
connection is closed and the loop returns without reading or writing. -/
theorem iteration_good_witness :
    ReadRequest closeState.br = some (⟨some closeRequest, true, none⟩, ⟨[], [], .eof⟩) ∧
    sampleServer.HandleGoodRequest sampleEnv closeRequest =
      some (Response.zero.HandleNotFound sampleEnv closeRequest, closeRequest) ∧
    (sampleServer.iteration sampleEnv closeState).conn.closed = true ∧
    ∀ fuel, sampleServer.loop sampleEnv (fuel + 1) (sampleServer.iteration sampleEnv closeState) =
      { sampleServer.iteration sampleEnv closeState with status := .returned } :=
  ⟨rfl, rfl,
    (iteration_good sampleServer sampleEnv closeState closeRequest true ⟨[], [], .eof⟩
      (Response.zero.HandleNotFound sampleEnv closeRequest) closeRequest
      ((Response.zero.HandleNotFound sampleEnv closeRequest).Write sampleEnv closeState.conn).1
      ((Response.zero.HandleNotFound sampleEnv closeRequest).Write sampleEnv closeState.conn).2
      rfl rfl rfl rfl (by decide)).2.2.2.2.2.1 rfl⟩

/-! ## C6: headers are written in sorted order -/

theorem foldl_append_flatMap (f : Str → Str) (ks : List Str) (init : Str) :
    ks.foldl (fun acc key => acc ++ f key) init = init ++ ks.flatMap f := by
  induction ks generalizing init with
  | nil => simp
  | cons k ks ih => simp [List.foldl_cons, ih, List.flatMap_cons, List.append_assoc]

theorem sortStrings_perm (keys : List Str) : (sortStrings keys).Perm keys :=
  List.perm_insertionSort _ keys

theorem sortStrings_sorted_le (keys : List Str) :
    (sortStrings keys).Sorted (fun a b => a ≤ b) :=
  List.sorted_insertionSort _ keys

theorem sortStrings_sorted_lt (keys : List Str) (h : keys.Nodup) :
    (sortStrings keys).Sorted (fun a b => a < b) :=
  (sortStrings_sorted_le keys).lt_of_le ((sortStrings_perm keys).nodup_iff.mpr h)

theorem sortStrings_eq_of_perm (k1 k2 : List Str) (h : k1.Perm k2) :
    sortStrings k1 = sortStrings k2 :=
  List.eq_of_perm_of_sorted
    (((sortStrings_perm k1).trans h).trans (sortStrings_perm k2).symm)
    (sortStrings_sorted_le k1) (sortStrings_sorted_le k2)

theorem keys_perm_of_lookup (m1 m2 : GoMap) (h : ∀ k, m1.lookup k = m2.lookup k) :
    m1.keys.Perm m2.keys := by
  rw [List.perm_ext_iff_of_nodup m1.keys_nodup m2.keys_nodup]
  intro k
  rw [← AList.mem_keys, ← AList.mem_keys, ← AList.lookup_isSome, ← AList.lookup_isSome, h k]

theorem headerString_eq (res : Response) :
    res.headerString =
      (sortStrings res.Header.keys).flatMap
        (fun k => k ++ ": ".toList ++ (res.Header.lookup k).getD [] ++ "\r\n".toList) ++
      "\r\n".toList := by
  unfold Response.headerString
  rw [foldl_append_flatMap
    (fun k => k ++ ": ".toList ++ (res.Header.lookup k).getD [] ++ "\r\n".toList)]
  simp

theorem headerString_congr (res res1 : Response)
    (h : ∀ k, res1.Header.lookup k = res.Header.lookup k) :
    res1.headerString = res.headerString := by
  rw [headerString_eq, headerString_eq,
    sortStrings_eq_of_perm _ _ (keys_perm_of_lookup _ _ h)]
  simp only [h]

/-- C6: for every response, `WriteSortedHeaders` writes, for the keys of
Header in strictly ascending lexicographic order, the concatenation of
`key ++ ": " ++ value ++ "\r\n"`, followed by one `"\r\n"`; on an open
connection exactly these bytes are appended. Two responses whose Header maps
are equal as mappings write the same bytes, and an empty Header map gives
exactly `"\r\n"`. -/
theorem WriteSortedHeaders_sorted (res : Response) (w : Conn) :
    (sortStrings res.Header.keys).Sorted (fun a b => a < b) ∧
    (∀ k, k ∈ sortStrings res.Header.keys ↔ k ∈ res.Header.keys) ∧
    res.WriteSortedHeaders w =
      w.Write (utf8 ((sortStrings res.Header.keys).flatMap
        (fun k => k ++ ": ".toList ++ (res.Header.lookup k).getD [] ++ "\r\n".toList) ++
        "\r\n".toList)) ∧
    (w.closed = false →
      res.WriteSortedHeaders w =
        (⟨false, w.out ++ utf8 ((sortStrings res.Header.keys).flatMap
          (fun k => k ++ ": ".toList ++ (res.Header.lookup k).getD [] ++ "\r\n".toList) ++
          "\r\n".toList)⟩, none)) ∧
    (∀ res1 : Response, (∀ k, res1.Header.lookup k = res.Header.lookup k) →
      res1.WriteSortedHeaders w = res.WriteSortedHeaders w) ∧
    (res.Header = ∅ → res.WriteSortedHeaders w = w.Write (utf8 "\r\n".toList)) := by
  refine ⟨sortStrings_sorted_lt _ res.Header.keys_nodup,
    fun k => (sortStrings_perm _).mem_iff, ?_, ?_, ?_, ?_⟩
  · unfold Response.WriteSortedHeaders
    rw [headerString_eq]
  · intro hw
    unfold Response.WriteSortedHeaders
    rw [headerString_eq, Conn_Write_open w _ hw]
  · intro res1 h
    unfold Response.WriteSortedHeaders
    rw [headerString_congr res res1 h]
  · intro h
    unfold Response.WriteSortedHeaders
    rw [headerString_eq, h]
    rfl

/-- C6, at two responses whose headers were inserted in opposite orders. -/
theorem WriteSortedHeaders_sorted_witness :
    ({ Response.zero with Header :=
          ((∅ : GoMap).insert "B".toList "2".toList).insert "A".toList "1".toList } :
        Response).WriteSortedHeaders ⟨false, []⟩ =
      ({ Response.zero with Header :=
          ((∅ : GoMap).insert "A".toList "1".toList).insert "B".toList "2".toList } :
        Response).WriteSortedHeaders ⟨false, []⟩ ∧
    ({ Response.zero with Header :=
          ((∅ : GoMap).insert "A".toList "1".toList).insert "B".toList "2".toList } :
        Response).WriteSortedHeaders ⟨false, []⟩ =
      (⟨false, utf8 "A: 1\r\nB: 2\r\n\r\n".toList⟩, none) :=
  ⟨(WriteSortedHeaders_sorted
      { Response.zero with Header :=
          ((∅ : GoMap).insert "A".toList "1".toList).insert "B".toList "2".toList }
      ⟨false, []⟩).2.2.2.2.1
      { Response.zero with Header :=
          ((∅ : GoMap).insert "B".toList "2".toList).insert "A".toList "1".toList }
      (fun _ => AList.perm_lookup (AList.insert_insert_of_ne _ (by decide))),
    by decide⟩

/-! ## C7: an OK response carries the length and the bytes of its file -/

theorem Response_Write_open (res : Response) (env : Env) (w : Conn) (data : List Nat)
    (hw : w.closed = false) (hf : res.FilePath ≠ [])
    (hr : env.ReadFile res.FilePath = some data) :
    res.Write env w =
      (⟨false, w.out ++ utf8 res.statusLine ++ utf8 res.headerString ++ data⟩, .ok) := by
  unfold Response.Write Response.WriteStatusLine Response.WriteSortedHeaders Response.WriteBody
  rw [Conn_Write_open w _ hw]
  simp only
  rw [Conn_Write_open _ _ rfl]
  simp only [hf, if_false, hr]
  rw [Conn_Write_open _ _ rfl]

/-- C7: for every file at path `f` with content `data` of N bytes, `HandleOK`
returns a response whose header Content-Length is the decimal string of N and
whose FilePath is `f`; `Write` of that response on an open connection emits
the status line `HTTP/1.1 200 OK`, then the sorted header block ended by the
blank line, then exactly the N bytes of the file and nothing after them. When
FilePath is empty `WriteBody` writes nothing. -/
theorem HandleOK_roundtrip (env : Env) (res0 : Response) (req : Request) (f : Str)
    (data : List Nat) (w : Conn) (hfile : env.fileAt f data) (hw : w.closed = false) :
    (∃ res, res0.HandleOK env req f = some res ∧
      res.Header.lookup "Content-Length".toList = some (FormatInt data.length) ∧
      res.FilePath = f ∧
      res.Write env w =
        (⟨false, w.out ++ utf8 "HTTP/1.1 200 OK\r\n".toList ++
          utf8 ((sortStrings res.Header.keys).flatMap
            (fun k => k ++ ": ".toList ++ (res.Header.lookup k).getD [] ++ "\r\n".toList) ++
            "\r\n".toList) ++ data⟩, .ok)) ∧
    (∀ (res : Response) (w1 : Conn), res.FilePath = [] → res.WriteBody env w1 = (w1, .ok)) := by
  obtain ⟨hne, ⟨info, hstat, hsize⟩, hread⟩ := hfile
  constructor
  · unfold Response.HandleOK
    simp only [hstat]
    refine ⟨_, rfl, ?_, rfl, ?_⟩
    · simp only [AList.lookup_insert, hsize]
    · rw [Response_Write_open _ env w data hw hne hread, headerString_eq]
      have hs : ∀ (h : GoMap) (r : Option Request),
          ({ StatusCode := statusOK, Proto := responseProto, Header := h, Request := r,
             FilePath := f } : Response).statusLine = "HTTP/1.1 200 OK\r\n".toList := by
        intro h r
        show responseProto ++ " ".toList ++ FormatInt statusOK ++ " ".toList ++
          statusText statusOK ++ "\r\n".toList = _
        decide
      rw [hs]
  · intro res w1 h
    unfold Response.WriteBody
    simp [h]

/-- C7, at the file `/srv/index.html` of five bytes. -/
theorem HandleOK_roundtrip_witness :
    sampleEnv.fileAt "/srv/index.html".toList [104, 101, 108, 108, 111] ∧
    (∃ res, Response.zero.HandleOK sampleEnv sampleRequest "/srv/index.html".toList = some res ∧
      res.Header.lookup "Content-Length".toList = some (FormatInt 5) ∧
      res.FilePath = "/srv/index.html".toList ∧
      res.Write sampleEnv ⟨false, []⟩ =
        (⟨false, [] ++ utf8 "HTTP/1.1 200 OK\r\n".toList ++
          utf8 ((sortStrings res.Header.keys).flatMap
            (fun k => k ++ ": ".toList ++ (res.Header.lookup k).getD [] ++ "\r\n".toList) ++
            "\r\n".toList) ++ [104, 101, 108, 108, 111]⟩, .ok)) :=
  ⟨⟨by decide, ⟨⟨5, 7⟩, rfl, rfl⟩, rfl⟩,
    (HandleOK_roundtrip sampleEnv Response.zero sampleRequest "/srv/index.html".toList
      [104, 101, 108, 108, 111] ⟨false, []⟩ ⟨by decide, ⟨⟨5, 7⟩, rfl, rfl⟩, rfl⟩ rfl).1⟩

/-! ## C8, C9: the builders -/

theorem statusLine_of (res : Response) (code : Nat) (line : Str) (hp : res.Proto = responseProto)
    (hcode : res.StatusCode = code)
    (hl : responseProto ++ " ".toList ++ FormatInt code ++ " ".toList ++ statusText code ++
      "\r\n".toList = line) : res.statusLine = line := by
  unfold Response.statusLine
  rw [hp, hcode, hl]

theorem HandleOK_some (res0 : Response) (env : Env) (req : Request) (f : Str) (res : Response)
    (h : res0.HandleOK env req f = some res) :
    res.Proto = responseProto ∧ res.StatusCode = statusOK ∧ res.FilePath = f ∧
    ∃ fistatus, env.Stat f = .ok fistatus ∧
      res.Header =
        ((((if req.Close then
              ((∅ : GoMap).insert "Date".toList (env.FormatTime env.Now)).insert
                "Connection".toList "close".toList
            else (∅ : GoMap).insert "Date".toList (env.FormatTime env.Now)).insert
          "Last-Modified".toList (env.FormatTime fistatus.ModTime)).insert
          "Content-Type".toList (env.MIMETypeByExtension (pathExt req.URL))).insert
          "Content-Length".toList (FormatInt fistatus.Size)) := by
  unfold Response.HandleOK at h
  simp only at h
  split at h
  · exact Option.noConfusion h
  · rename_i fistatus hs
    simp only [Option.some.injEq] at h
    rw [← h]
    exact ⟨rfl, rfl, rfl, fistatus, hs, rfl⟩

/-- C8: every response built by `HandleOK`, `HandleNotFound` or
`HandleBadRequest` has Proto `HTTP/1.1` and a StatusCode that is a key of
`statusText` with a non-empty reason phrase, so `WriteStatusLine` writes
exactly `HTTP/1.1 200 OK\r\n`, `HTTP/1.1 404 Not Found\r\n` or
`HTTP/1.1 400 Bad Request\r\n` respectively. -/
theorem builders_statusLine (env : Env) (res0 : Response) (req : Request) (f : Str) (w : Conn) :
    (∀ res, res0.HandleOK env req f = some res →
      res.Proto = "HTTP/1.1".toList ∧ res.StatusCode ∈ statusTextTable.map Prod.fst ∧
      statusText res.StatusCode ≠ [] ∧
      res.WriteStatusLine w = w.Write (utf8 "HTTP/1.1 200 OK\r\n".toList)) ∧
    ((res0.HandleNotFound env req).Proto = "HTTP/1.1".toList ∧
      (res0.HandleNotFound env req).StatusCode ∈ statusTextTable.map Prod.fst ∧
      statusText (res0.HandleNotFound env req).StatusCode ≠ [] ∧
      (res0.HandleNotFound env req).WriteStatusLine w =
        w.Write (utf8 "HTTP/1.1 404 Not Found\r\n".toList)) ∧
    ((res0.HandleBadRequest env).Proto = "HTTP/1.1".toList ∧
      (res0.HandleBadRequest env).StatusCode ∈ statusTextTable.map Prod.fst ∧
      statusText (res0.HandleBadRequest env).StatusCode ≠ [] ∧
      (res0.HandleBadRequest env).WriteStatusLine w =
        w.Write (utf8 "HTTP/1.1 400 Bad Request\r\n".toList)) := by
  refine ⟨fun res h => ?_, ?_, ?_⟩
  · obtain ⟨hp, hc, _, _⟩ := HandleOK_some res0 env req f res h
    refine ⟨hp, ?_, ?_, ?_⟩
    · rw [hc]; decide
    · rw [hc]; decide
    · unfold Response.WriteStatusLine
      rw [statusLine_of res statusOK "HTTP/1.1 200 OK\r\n".toList hp hc (by decide)]
  · refine ⟨rfl, ?_, ?_, ?_⟩
    · show statusNotFound ∈ _; decide
    · show statusText statusNotFound ≠ []; decide
    · unfold Response.WriteStatusLine
      rw [statusLine_of _ statusNotFound "HTTP/1.1 404 Not Found\r\n".toList rfl rfl (by decide)]
  · refine ⟨rfl, ?_, ?_, ?_⟩
    · show statusBadRequest ∈ _; decide
    · show statusText statusBadRequest ≠ []; decide
    · unfold Response.WriteStatusLine
      rw [statusLine_of _ statusBadRequest "HTTP/1.1 400 Bad Request\r\n".toList rfl rfl (by decide)]

/-- C8, at the OK response for `/srv/index.html`. -/
theorem builders_statusLine_witness :
    ∃ res, Response.zero.HandleOK sampleEnv sampleRequest "/srv/index.html".toList = some res ∧
      res.Proto = "HTTP/1.1".toList ∧ res.StatusCode ∈ statusTextTable.map Prod.fst ∧
      statusText res.StatusCode ≠ [] ∧
      res.WriteStatusLine ⟨false, []⟩ =
        (⟨false, [] ++ utf8 "HTTP/1.1 200 OK\r\n".toList⟩, none) :=
  ⟨_, rfl,
    (builders_statusLine sampleEnv Response.zero sampleRequest "/srv/index.html".toList
      ⟨false, []⟩).1 _ rfl⟩

/-- C9: `HandleBadRequest` always sets the header Connection to `close`; for
every request, the responses of `HandleOK` and `HandleNotFound` have the key
Connection in Header if and only if the request has Close = true, and its
value is then `close`. -/
theorem builders_connection (env : Env) (res0 : Response) (req : Request) (f : Str) :
    (res0.HandleBadRequest env).Header.lookup "Connection".toList = some "close".toList ∧
    (∀ res, res0.HandleOK env req f = some res →
      ("Connection".toList ∈ res.Header.keys ↔ req.Close = true) ∧
      res.Header.lookup "Connection".toList =
        if req.Close then some "close".toList else none) ∧
    (("Connection".toList ∈ (res0.HandleNotFound env req).Header.keys ↔ req.Close = true) ∧
      (res0.HandleNotFound env req).Header.lookup "Connection".toList =
        if req.Close then some "close".toList else none) := by
  have key : ∀ m : GoMap, (m.lookup "Connection".toList =
      if req.Close then some "close".toList else none) →
      ("Connection".toList ∈ m.keys ↔ req.Close = true) := by
    intro m hm
    rw [← AList.mem_keys, ← AList.lookup_isSome, hm]
    cases req.Close <;> simp
  refine ⟨?_, fun res h => ?_, ?_⟩
  · unfold Response.HandleBadRequest
    rw [AList.lookup_insert_ne (by decide), AList.lookup_insert]
  · obtain ⟨_, _, _, fi, _, hh⟩ := HandleOK_some res0 env req f res h
    have hl : res.Header.lookup "Connection".toList =
        if req.Close then some "close".toList else none := by
      rw [hh, AList.lookup_insert_ne (by decide), AList.lookup_insert_ne (by decide),
        AList.lookup_insert_ne (by decide)]
      cases req.Close
      · simp only [Bool.false_eq_true, if_false]
        rw [AList.lookup_insert_ne (by decide)]
        rfl
      · simp only [if_true]
        rw [AList.lookup_insert]
    exact ⟨key _ hl, hl⟩
  · have hl : (res0.HandleNotFound env req).Header.lookup "Connection".toList =
        if req.Close then some "close".toList else none := by
      unfold Response.HandleNotFound
      simp only
      cases req.Close
      · simp only [Bool.false_eq_true, if_false]
        rw [AList.lookup_insert_ne (by decide)]
        rfl
      · simp only [if_true]
        rw [AList.lookup_insert]
    exact ⟨key _ hl, hl⟩

/-- C9, at the OK response for `/srv/index.html` to a request without
`Connection: close`. -/
theorem builders_connection_witness :
    ∃ res, Response.zero.HandleOK sampleEnv sampleRequest "/srv/index.html".toList = some res ∧
      ("Connection".toList ∈ res.Header.keys ↔ sampleRequest.Close = true) ∧
      res.Header.lookup "Connection".toList =
        if sampleRequest.Close then some "close".toList else none :=
  ⟨_, rfl,
    (builders_connection sampleEnv Response.zero sampleRequest "/srv/index.html".toList).2.1
      _ rfl⟩

/-! ## C10: a url ending in `/` stands for its `index.html` -/

theorem endsWith_index (u : Str) : endsWith (u ++ "index.html".toList) "/".toList = false := by
  have e : ("index.html".toList).reverse = 'l' :: "mth.xedni".toList := by decide
  have e2 : ("/".toList).reverse = ['/'] := by decide
  unfold endsWith List.isSuffixOf
  rw [List.reverse_append, e, e2]
  simp [List.isPrefixOf]

/-- C10: for every document root, file system, clock and request whose URL `u`
ends in `/`, `HandleGoodRequest` gives the same result (the same response:
status code, headers, FilePath) as on the otherwise identical request whose
URL is `u ++ "index.html"`. -/
theorem HandleGoodRequest_index (s : Server) (env : Env) (req : Request)
    (h : endsWith req.URL "/".toList = true) :
    s.HandleGoodRequest env req =
      s.HandleGoodRequest env { req with URL := req.URL ++ "index.html".toList } := by
  unfold Server.HandleGoodRequest
  simp only [h, if_true, endsWith_index, Bool.false_eq_true, if_false]

/-- C10, at the url `/` under the document root `/srv`: both requests are
answered with the OK response for `/srv/index.html`. -/
theorem HandleGoodRequest_index_witness :
    endsWith sampleRequest.URL "/".toList = true ∧
    sampleServer.HandleGoodRequest sampleEnv sampleRequest =
      sampleServer.HandleGoodRequest sampleEnv
        { sampleRequest with URL := sampleRequest.URL ++ "index.html".toList } ∧
    (sampleServer.HandleGoodRequest sampleEnv sampleRequest).map
        (fun p => (p.1.StatusCode, p.1.FilePath)) =
      some (200, "/srv/index.html".toList) :=
  ⟨by decide, HandleGoodRequest_index sampleServer sampleEnv sampleRequest (by decide),
    by decide⟩

/-! ## C11: a stat error other than "does not exist" -/

theorem HandleGoodRequest_other_error (s : Server) (env : Env) (req : Request)
    (hu : endsWith req.URL "/".toList = false)
    (h : env.Stat (filepathClean (filepathJoin [s.DocRoot, req.URL])) = .error .other) :
    s.HandleGoodRequest env req = none := by
  unfold Server.HandleGoodRequest
  simp only [hu, Bool.false_eq_true, if_false, h]
  unfold Response.HandleOK
  simp only [h, Option.map_none']

theorem HandleGoodRequest_notExist (s : Server) (env : Env) (req : Request)
    (hu : endsWith req.URL "/".toList = false)
    (h : env.Stat (filepathClean (filepathJoin [s.DocRoot, req.URL])) = .error .notExist) :
    s.HandleGoodRequest env req = some (Response.zero.HandleNotFound env req, req) := by
  unfold Server.HandleGoodRequest
  simp only [hu, Bool.false_eq_true, if_false, h]

/-- C11 fails on the code: for the url `/index.html/x` under the document root
`/srv`, where `/srv/index.html` is a file, the stat of the resolved path fails
with an error other than "does not exist"; `HandleGoodRequest` then goes on to
`HandleOK`, which panics on the nil file info, instead of returning a 404. -/
theorem HandleGoodRequest_stat_error_panics :
    filepathClean (filepathJoin [sampleServer.DocRoot, "/index.html/x".toList]) =
      "/srv/index.html/x".toList ∧
    hostEnv.Stat "/srv/index.html/x".toList = .error .other ∧
    sampleServer.HandleGoodRequest hostEnv
      { sampleRequest with URL := "/index.html/x".toList } = none :=
  ⟨by decide, rfl,
    HandleGoodRequest_other_error sampleServer hostEnv
      { sampleRequest with URL := "/index.html/x".toList } (by decide) rfl⟩

/-! ## C12, C19: panics of `ReadRequest` -/

theorem ReadRequest_invalid_url (c : Char) (u : Str) (rest : List Str) (pending : Str)
    (fail : Err) (hc : c ≠ '/') (hs : ' ' ∉ c :: u) :
    ReadRequest ⟨("GET ".toList ++ (c :: u) ++ " HTTP/1.1".toList) :: rest, pending, fail⟩ =
      some (⟨none, true, some (.invalidURL (c :: u))⟩, ⟨rest, pending, fail⟩) := by
  unfold ReadRequest ReadLine
  simp only [parseStartLine_get _ hs]
  have hv : validMethod "GET".toList "HTTP/1.1".toList = true := by decide
  simp only [hv, Bool.not_true, Bool.false_eq_true, if_false]
  have hb : (c != '/') = true := by simpa using hc
  simp only [hb, if_true]

/-- C12 fails on the code: the start line `GET  HTTP/1.1` splits into the
three fields `GET`, the empty url and `HTTP/1.1`; `ReadRequest` then reads
`req.URL[0]` of the empty url and panics (index out of range) instead of
returning an error. -/
theorem ReadRequest_empty_url_panics :
    parseStartLine "GET  HTTP/1.1".toList = .ok ("GET".toList, [], "HTTP/1.1".toList) ∧
    ReadRequest ⟨["GET  HTTP/1.1".toList, "Host: x".toList, []], [], .eof⟩ = none :=
  ⟨rfl, rfl⟩

/-- C19 fails on the code: on the header lines `Host:x`, `Host:` and
`Connection`, which hold no space, `SplitN(line, " ", 2)` has one element and
the access `[1]` panics (index out of range): `ReadRequest` returns nothing. -/
theorem ReadRequest_header_without_space_panics :
    SplitN (TrimSpace "Host:x".toList) ' ' 2 = ["Host:x".toList] ∧
    ReadRequest ⟨["GET / HTTP/1.1".toList, "Host:x".toList, []], [], .eof⟩ = none ∧
    ReadRequest ⟨["GET / HTTP/1.1".toList, "Host:".toList, []], [], .eof⟩ = none ∧
    ReadRequest ⟨["GET / HTTP/1.1".toList, "Host: x".toList, "Connection".toList, []],
      [], .eof⟩ = none :=
  ⟨by decide, rfl, rfl, rfl⟩

/-! ## C13, C20: a failed read of the start line -/

/-- C13 fails on the code: when the bytes `GE` arrive and the read then times
out, or the stream then ends, `ReadRequest` returns bytesReceived = false,
although bytes were received before the error. -/
theorem ReadRequest_cut_start_line :
    ReadRequest ⟨[], "GE".toList, .timeout⟩ =
      some (⟨none, false, some .timeout⟩, ⟨[], "GE".toList, .timeout⟩) ∧
    ReadRequest ⟨[], "GE".toList, .eof⟩ =
      some (⟨none, false, some .incompleteLine⟩, ⟨[], "GE".toList, .eof⟩) :=
  ⟨rfl, rfl⟩

/-- C20 fails on the code: when the read of the start line fails with an
error that is neither end of stream nor a timeout, `ReadRequest` returns a nil
request with bytesReceived = false, and the round of `HandleConnection` reads
`req.URL[0]` of the nil request: it panics, with nothing written and the
connection not closed. -/
theorem iteration_nil_request_panics :
    ReadRequest ⟨[], [], .transport⟩ =
      some (⟨none, false, some .transport⟩, ⟨[], [], .transport⟩) ∧
    sampleServer.iteration sampleEnv ⟨⟨false, []⟩, ⟨[], [], .transport⟩, 0, .running⟩ =
      ⟨⟨false, []⟩, ⟨[], [], .transport⟩, 1, .panicked⟩ ∧
    sampleServer.HandleConnection sampleEnv ⟨false, []⟩ ⟨[], [], .transport⟩ =
      ⟨⟨false, []⟩, ⟨[], [], .transport⟩, 1, .panicked⟩ :=
  ⟨rfl, by decide, by decide⟩

/-! ## C15: Host as a key of the header map -/

/-- C15 fails on the code: the header line `host: y` does not start with the
literal `Host`, so it goes through the generic splitter and is stored under
its canonical key: the request returned has the key `Host` in its Header map. -/
theorem ReadRequest_stores_host_key :
    ReadRequest ⟨["GET / HTTP/1.1".toList, "Host: x".toList, "host: y".toList, []],
        [], .eof⟩ =
      some (⟨some { sampleRequest with
                    Header := (∅ : GoMap).insert "Host".toList "y".toList }, true, none⟩,
            ⟨[], [], .eof⟩) ∧
    "Host".toList ∈ ((∅ : GoMap).insert "Host".toList "y".toList).keys ∧
    ReadRequest ⟨["GET / HTTP/1.1".toList, "Host: x".toList, "connection: close".toList, []],
        [], .eof⟩ =
      some (⟨some { sampleRequest with
                    Header := (∅ : GoMap).insert "Connection".toList "close".toList },
              true, none⟩, ⟨[], [], .eof⟩) :=
  ⟨rfl, by decide, rfl⟩

/-! ## C18: the resolved path may leave the document root -/

/-- C18: path traversal is not prevented. With the document root `/srv` and
the url `/../etc/passwd`, which begins with `/` and is accepted by
`ReadRequest`, the path `HandleGoodRequest` resolves is `/etc/passwd`: it is
not the document root and does not lie under it, and it is the FilePath of
the 200 response. -/
theorem path_traversal :
    ∃ (d u : Str) (req : Request),
      startsWith u "/".toList = true ∧
      ReadRequest ⟨requestLines u "x".toList [], [], .eof⟩ =
        some (⟨some req, true, none⟩, ⟨[], [], .eof⟩) ∧
      req.URL = u ∧
      filepathClean (filepathJoin [d, u]) ≠ d ∧
      startsWith (filepathClean (filepathJoin [d, u])) (d ++ "/".toList) = false ∧
      filepathClean (filepathJoin [d, u]) = "/etc/passwd".toList ∧
      ((⟨":0".toList, d⟩ : Server).HandleGoodRequest hostEnv req).map
          (fun p => (p.1.StatusCode, p.1.FilePath)) =
        some (200, "/etc/passwd".toList) :=
  ⟨"/srv".toList, "/../etc/passwd".toList,
    { sampleRequest with URL := "/../etc/passwd".toList },
    by decide, rfl, rfl, by decide, by decide, by decide, by decide⟩

/-! ## C17: the fields of the start line -/

theorem dropWhile_ne_sep_head (sep : Char) (l : Str) (x : Char) (r : Str)
    (h : l.dropWhile (fun c => c != sep) = x :: r) : x = sep := by
  induction l with
  | nil => simp at h
  | cons y ys ih =>
    by_cases hy : y = sep
    · subst hy
      simp [List.dropWhile] at h
      exact h.1.symm
    · have hb : (y != sep) = true := by simpa using hy
      simp only [List.dropWhile_cons, hb, if_true] at h
      exact ih h

theorem takeWhile_ne_sep_not_mem (sep : Char) (l : Str) :
    sep ∉ l.takeWhile (fun c => c != sep) := by
  intro hm
  have := List.mem_takeWhile_imp hm
  simp at this

theorem SplitN_succ_succ (l : Str) (sep : Char) (n : Nat) :
    SplitN l sep (n + 2) =
      match l.dropWhile (fun c => c != sep) with
      | [] => [l.takeWhile (fun c => c != sep)]
      | _ :: rest => l.takeWhile (fun c => c != sep) :: SplitN rest sep (n + 1) := by
  rw [SplitN, List.span_eq_take_drop]
  cases l.dropWhile (fun c => c != sep) <;> rfl

theorem parseStartLine_fields (a b c : Str) (ha : ' ' ∉ a) (hb : ' ' ∉ b) :
    parseStartLine (a ++ ' ' :: (b ++ ' ' :: c)) = .ok (a, b, c) := by
  have h1 : ∀ x ∈ a, x ≠ ' ' := fun x hx hxx => ha (hxx ▸ hx)
  have h2 : ∀ x ∈ b, x ≠ ' ' := fun x hx hxx => hb (hxx ▸ hx)
  unfold parseStartLine
  simp only [SplitN, span_sep ' ' _ _ h1, span_sep ' ' _ _ h2]

theorem parseStartLine_cases (line : Str) :
    (∃ a b c, line = a ++ ' ' :: (b ++ ' ' :: c) ∧ ' ' ∉ a ∧ ' ' ∉ b ∧
      parseStartLine line = .ok (a, b, c)) ∨
    (line.count ' ' < 2 ∧
      parseStartLine line = .error (.malformedStartLine (SplitN line ' ' 3))) := by
  have hsplit := SplitN_succ_succ line ' ' 1
  have ht := List.takeWhile_append_dropWhile (fun c => c != ' ') line
  have hn := takeWhile_ne_sep_not_mem ' ' line
  cases hd : line.dropWhile (fun c => c != ' ') with
  | nil =>
    right
    rw [hd] at hsplit ht
    simp only at hsplit
    rw [List.append_nil] at ht
    rw [ht] at hn hsplit
    refine ⟨?_, ?_⟩
    · rw [List.count_eq_zero.mpr hn]; decide
    · unfold parseStartLine
      rw [hsplit]
  | cons x r1 =>
    have hx := dropWhile_ne_sep_head ' ' line x r1 hd
    subst hx
    rw [hd] at hsplit ht
    simp only at hsplit
    have hsplit1 := SplitN_succ_succ r1 ' ' 0
    have ht1 := List.takeWhile_append_dropWhile (fun c => c != ' ') r1
    have hn1 := takeWhile_ne_sep_not_mem ' ' r1
    cases hd1 : r1.dropWhile (fun c => c != ' ') with
    | nil =>
      right
      rw [hd1] at hsplit1 ht1
      simp only at hsplit1
      rw [List.append_nil] at ht1
      rw [ht1] at hn1 hsplit1
      refine ⟨?_, ?_⟩
      · rw [← ht, List.count_append, List.count_cons, List.count_eq_zero.mpr hn,
          List.count_eq_zero.mpr hn1]
        decide
      · unfold parseStartLine
        rw [hsplit, hsplit1]
    | cons y r2 =>
      left
      have hy := dropWhile_ne_sep_head ' ' r1 y r2 hd1
      subst hy
      rw [hd1] at hsplit1 ht1
      refine ⟨_, _, r2, ?_, hn, hn1, ?_⟩
      · rw [ht1, ht]
      · unfold parseStartLine
        rw [hsplit, hsplit1]
        simp only [SplitN]

/-- C17 as stated fails: the line `GET / HTTP/1.1 x` has four space-separated
fields (three spaces), yet `parseStartLine` succeeds on it, with the rest of
the line after the second space as the protocol version. -/
theorem C17_counterexample :
    ("GET / HTTP/1.1 x".toList).count ' ' = 3 ∧
    parseStartLine "GET / HTTP/1.1 x".toList =
      .ok ("GET".toList, "/".toList, "HTTP/1.1 x".toList) :=
  ⟨by decide, rfl⟩

/-- C17 (amended): `parseStartLine` succeeds if and only if the start line has
at least three space-separated fields, that is at least two spaces; it then
returns the first field, the second field and the whole rest of the line
after the second space, which is the third field when there are exactly
three. For every line with fewer than three fields it returns a
malformed-start-line error. -/
theorem parseStartLine_iff (line : Str) :
    (∀ a b c, parseStartLine line = .ok (a, b, c) ↔
      (line = a ++ ' ' :: (b ++ ' ' :: c) ∧ ' ' ∉ a ∧ ' ' ∉ b)) ∧
    ((∃ a b c, parseStartLine line = .ok (a, b, c)) ↔ 2 ≤ line.count ' ') ∧
    (line.count ' ' = 2 → ∃ a b c, parseStartLine line = .ok (a, b, c) ∧
      ' ' ∉ a ∧ ' ' ∉ b ∧ ' ' ∉ c) ∧
    (line.count ' ' < 2 →
      parseStartLine line = .error (.malformedStartLine (SplitN line ' ' 3))) := by
  have hcount : ∀ a b c : Str, ' ' ∉ a → ' ' ∉ b →
      (a ++ ' ' :: (b ++ ' ' :: c)).count ' ' = 2 + c.count ' ' := by
    intro a b c ha hb
    rw [List.count_append, List.count_cons, List.count_append, List.count_cons,
      List.count_eq_zero.mpr ha, List.count_eq_zero.mpr hb]
    simp
    omega
  refine ⟨?_, ?_, ?_, ?_⟩
  · intro a b c
    constructor
    · intro h
      rcases parseStartLine_cases line with ⟨a1, b1, c1, hl, ha, hb, hp⟩ | ⟨_, he⟩
      · rw [hp] at h
        simp only [Except.ok.injEq, Prod.mk.injEq] at h
        obtain ⟨rfl, rfl, rfl⟩ := h
        exact ⟨hl, ha, hb⟩
      · rw [he] at h
        exact Except.noConfusion h
    · rintro ⟨hl, ha, hb⟩
      rw [hl]
      exact parseStartLine_fields a b c ha hb
  · constructor
    · rintro ⟨a, b, c, h⟩
      rcases parseStartLine_cases line with ⟨a1, b1, c1, hl, ha, hb, _⟩ | ⟨_, he⟩
      · rw [hl, hcount a1 b1 c1 ha hb]
        omega
      · rw [he] at h
        exact Except.noConfusion h
    · intro h
      rcases parseStartLine_cases line with ⟨a1, b1, c1, _, _, _, hp⟩ | ⟨hlt, _⟩
      · exact ⟨a1, b1, c1, hp⟩
      · omega
  · intro h
    rcases parseStartLine_cases line with ⟨a1, b1, c1, hl, ha, hb, hp⟩ | ⟨hlt, _⟩
    · refine ⟨a1, b1, c1, hp, ha, hb, ?_⟩
      rw [hl, hcount a1 b1 c1 ha hb] at h
      exact List.count_eq_zero.mp (by omega)
    · omega
  · intro h
    rcases parseStartLine_cases line with ⟨a1, b1, c1, hl, ha, hb, _⟩ | ⟨_, he⟩
    · rw [hl, hcount a1 b1 c1 ha hb] at h
      omega
    · exact he

/-- C17 (amended), at a line of two fields and at a line of three. -/
theorem parseStartLine_iff_witness :
    ("GET /".toList).count ' ' < 2 ∧
    parseStartLine "GET /".toList =
      .error (.malformedStartLine (SplitN "GET /".toList ' ' 3)) ∧
    SplitN "GET /".toList ' ' 3 = ["GET".toList, "/".toList] ∧
    ("GET / HTTP/1.1".toList).count ' ' = 2 ∧
    ∃ a b c, parseStartLine "GET / HTTP/1.1".toList = .ok (a, b, c) ∧
      ' ' ∉ a ∧ ' ' ∉ b ∧ ' ' ∉ c :=
  ⟨by decide, (parseStartLine_iff "GET /".toList).2.2.2 (by decide), by decide, by decide,
    (parseStartLine_iff "GET / HTTP/1.1".toList).2.2.1 (by decide)⟩

/-! ## C14: the Close flag -/

theorem lastConnection_cons (raw : Str) (hdrs : List Str) :
    lastConnection (raw :: hdrs) =
      match lastConnection hdrs with
      | some l => some l
      | none =>
        if startsWith (TrimSpace raw) "Connection".toList then some (TrimSpace raw) else none := by
  unfold lastConnection
  simp only [List.map_cons, List.filter_cons]
  by_cases hc : startsWith (TrimSpace raw) "Connection".toList = true
  · simp only [hc, if_true, List.getLast?_cons]
    cases (List.filter (fun l => startsWith l "Connection".toList)
      (List.map TrimSpace hdrs)).getLast? <;> rfl
  · simp only [hc, Bool.false_eq_true, if_false]
    cases (List.filter (fun l => startsWith l "Connection".toList)
      (List.map TrimSpace hdrs)).getLast? <;> rfl

theorem close_step (raw : Str) (hdrs : List Str) (c0 : Bool) :
    ((lastConnection (raw :: hdrs)).map asksClose).getD c0 =
      ((lastConnection hdrs).map asksClose).getD
        (if startsWith (TrimSpace raw) "Connection".toList then asksClose (TrimSpace raw)
          else c0) := by
  rw [lastConnection_cons]
  cases lastConnection hdrs with
  | some l => rfl
  | none =>
    by_cases hc : startsWith (TrimSpace raw) "Connection".toList = true
    · simp only [if_pos hc, Option.map_some', Option.getD_some, Option.map_none',
        Option.getD_none]
    · simp only [if_neg hc, Option.map_none', Option.getD_none]

theorem some_beq_some (a b : Str) : (some a == some b) = (a == b) := by
  by_cases hab : a = b
  · subst hab; simp
  · simp [hab]

theorem not_Connection_of_Host (line : Str) (h : startsWith line "Host".toList = true) :
    startsWith line "Connection".toList = false := by
  cases line with
  | nil => simp [startsWith, List.isPrefixOf] at h
  | cons c cs =>
    have hc : c = 'H' := by
      simp [startsWith, List.isPrefixOf] at h
      exact h.1.symm
    subst hc
    simp [startsWith, List.isPrefixOf]

theorem readHeaders_close (pending : Str) (fail : Err) (lines : List Str) (req0 : Request)
    (r : ReadResult) (br : Reader) (req : Request)
    (h : readHeaders pending fail lines req0 = some (r, br)) (hr : r.req = some req) :
    ∃ hdrs term, lines = hdrs ++ term :: br.lines ∧ TrimSpace term = [] ∧
      (∀ l ∈ hdrs, TrimSpace l ≠ []) ∧
      req.Close = ((lastConnection hdrs).map asksClose).getD req0.Close := by
  induction lines generalizing req0 with
  | nil =>
    rw [readHeaders] at h
    simp only [Option.some.injEq, Prod.mk.injEq] at h
    rw [← h.1] at hr; simp at hr
  | cons raw rest ih =>
    rw [readHeaders] at h
    split_ifs at h with h1 h2 h3 h4
    · simp only [Option.some.injEq, Prod.mk.injEq] at h
      rw [← h.1] at hr; simp at hr
    · simp only [Option.some.injEq, Prod.mk.injEq] at h
      rw [← h.1] at hr
      simp only [Option.some.injEq] at hr
      subst hr
      refine ⟨[], raw, ?_, h1, ?_, rfl⟩
      · rw [← h.2]; rfl
      · intro l hl; simp at hl
    · split at h
      · exact Option.noConfusion h
      · obtain ⟨hdrs, term, e1, e2, e3, e4⟩ := ih _ h
        refine ⟨raw :: hdrs, term, by rw [e1]; rfl, e2, ?_, ?_⟩
        · intro l hl
          rcases List.mem_cons.mp hl with rfl | hl
          · exact h1
          · exact e3 l hl
        · rw [close_step, not_Connection_of_Host _ h3]
          exact e4
    · split at h
      · exact Option.noConfusion h
      · rename_i v hv
        obtain ⟨hdrs, term, e1, e2, e3, e4⟩ := ih _ h
        refine ⟨raw :: hdrs, term, by rw [e1]; rfl, e2, ?_, ?_⟩
        · intro l hl
          rcases List.mem_cons.mp hl with rfl | hl
          · exact h1
          · exact e3 l hl
        · rw [close_step, h4]
          simp only [if_true]
          have : asksClose (TrimSpace raw) = (v == "close".toList) := by
            unfold asksClose
            rw [hv, some_beq_some]
          rw [this]
          exact e4
    · split at h
      · simp only [Option.some.injEq, Prod.mk.injEq] at h
        rw [← h.1] at hr; simp at hr
      · split_ifs at h with h5
        · simp only [Option.some.injEq, Prod.mk.injEq] at h
          rw [← h.1] at hr; simp at hr
        · obtain ⟨hdrs, term, e1, e2, e3, e4⟩ := ih _ h
          refine ⟨raw :: hdrs, term, by rw [e1]; rfl, e2, ?_, ?_⟩
          · intro l hl
            rcases List.mem_cons.mp hl with rfl | hl
            · exact h1
            · exact e3 l hl
          · rw [close_step]
            simp only [h4, Bool.false_eq_true, if_false]
            exact e4

/-- C14 as stated fails: the header block below contains the header
`Connection: close`, yet the request returned has Close = false, because the
later line `Connection: keep-alive` sets the flag again. -/
theorem C14_counterexample :
    "Connection: close".toList ∈
      ["Host: x".toList, "Connection: close".toList, "Connection: keep-alive".toList] ∧
    ReadRequest ⟨["GET / HTTP/1.1".toList, "Host: x".toList, "Connection: close".toList,
        "Connection: keep-alive".toList, []], [], .eof⟩ =
      some (⟨some sampleRequest, true, none⟩, ⟨[], [], .eof⟩) ∧
    sampleRequest.Close = false :=
  ⟨by decide, rfl, rfl⟩

/-- C14 (amended): for every line stream on which `ReadRequest` succeeds, the
lines read are the start line, the header lines (none of them empty once
trimmed) and a line that is empty once trimmed, and the Close flag of the
request is true if and only if the last header line that, once trimmed, starts
with `Connection` has exactly `close` after its first space. -/
theorem ReadRequest_close (br : Reader) (r : ReadResult) (br1 : Reader) (req : Request)
    (h : ReadRequest br = some (r, br1)) (hr : r.req = some req) :
    ∃ startline hdrs term, br.lines = startline :: (hdrs ++ term :: br1.lines) ∧
      TrimSpace term = [] ∧ (∀ l ∈ hdrs, TrimSpace l ≠ []) ∧
      (req.Close = true ↔
        ∃ l, lastConnection hdrs = some l ∧ (SplitN l ' ' 2)[1]? = some "close".toList) := by
  unfold ReadRequest ReadLine at h
  obtain ⟨lines, pending, fail⟩ := br
  cases lines with
  | nil =>
    simp only [Option.some.injEq, Prod.mk.injEq] at h
    rw [← h.1] at hr; simp at hr
  | cons line rest =>
    simp only at h
    split at h
    · simp only [Option.some.injEq, Prod.mk.injEq] at h
      rw [← h.1] at hr; simp at hr
    · split_ifs at h with hv
      · simp only [Option.some.injEq, Prod.mk.injEq] at h
        rw [← h.1] at hr; simp at hr
      · split at h
        · exact Option.noConfusion h
        · split_ifs at h with hc
          · simp only [Option.some.injEq, Prod.mk.injEq] at h
            rw [← h.1] at hr; simp at hr
          · obtain ⟨hdrs, term, e1, e2, e3, e4⟩ := readHeaders_close _ _ _ _ r br1 req h hr
            refine ⟨line, hdrs, term, by rw [e1], e2, e3, ?_⟩
            rw [e4]
            cases hl : lastConnection hdrs with
            | none => simp
            | some l =>
              simp only [Option.map_some', Option.getD_some, Option.some.injEq,
                exists_eq_left']
              unfold asksClose
              cases hs : (SplitN l ' ' 2)[1]? with
              | none => simp
              | some v =>
                rw [some_beq_some]
                simp

/-- C14 (amended), at a request whose last Connection line asks to close. -/
theorem ReadRequest_close_witness :
    ReadRequest closeState.br = some (⟨some closeRequest, true, none⟩, ⟨[], [], .eof⟩) ∧
    closeRequest.Close = true ∧
    ∃ startline hdrs term, closeState.br.lines = startline :: (hdrs ++ term :: []) ∧
      TrimSpace term = [] ∧ (∀ l ∈ hdrs, TrimSpace l ≠ []) ∧
      (closeRequest.Close = true ↔
        ∃ l, lastConnection hdrs = some l ∧ (SplitN l ' ' 2)[1]? = some "close".toList) :=
  ⟨rfl, rfl,
    ReadRequest_close closeState.br ⟨some closeRequest, true, none⟩ ⟨[], [], .eof⟩
      closeRequest rfl rfl⟩

/-! ## C16: header lines that are rejected -/

theorem forbidden_case_fixed : ∀ c ∈ forbiddenChars, c.toUpper = c ∧ c.toLower = c := by
  decide

theorem contains_toUpper (c : Char) :
    forbiddenChars.contains c.toUpper = forbiddenChars.contains c := by
  cases h : forbiddenChars.contains c with
  | false => exact forbidden_toUpper c h
  | true =>
    have hm : c ∈ forbiddenChars := by simpa using h
    rw [(forbidden_case_fixed c hm).1]
    exact h

theorem contains_toLower (c : Char) :
    forbiddenChars.contains c.toLower = forbiddenChars.contains c := by
  cases h : forbiddenChars.contains c with
  | false => exact forbidden_toLower c h
  | true =>
    have hm : c ∈ forbiddenChars := by simpa using h
    rw [(forbidden_case_fixed c hm).2]
    exact h

theorem ContainsAny_canonAux_eq (up : Bool) (s : Str) :
    ContainsAny (canonAux up s) forbiddenChars = ContainsAny s forbiddenChars := by
  induction s generalizing up with
  | nil => rfl
  | cons c cs ih =>
    unfold ContainsAny at ih ⊢
    simp only [canonAux, List.any_cons, ih]
    cases up
    · simp only [Bool.false_eq_true, if_false, contains_toLower]
    · simp only [if_true, contains_toUpper]

theorem sepHeaderline_no_colon (line : Str) (h : ':' ∉ line) :
    sepHeaderline line = .error () := by
  unfold sepHeaderline
  have hs : ∀ c ∈ line, c ≠ ':' := fun c hc hcc => h (hcc ▸ hc)
  simp only [SplitN, span_nosep ':' line hs]

theorem sepHeaderline_colon (k v : Str) (h : ':' ∉ k) :
    sepHeaderline (k ++ ':' :: v) = .ok (CanonicalHeaderKey (TrimSpace k), TrimSpace v) := by
  unfold sepHeaderline
  have hs : ∀ c ∈ k, c ≠ ':' := fun c hc hcc => h (hcc ▸ hc)
  rw [SplitN_two k v ':' hs]

theorem readHeaders_keys (pending : Str) (fail : Err) (lines : List Str) (req0 : Request)
    (r : ReadResult) (br : Reader) (req : Request)
    (h0 : ∀ key ∈ req0.Header.keys, ContainsAny key forbiddenChars = false)
    (h : readHeaders pending fail lines req0 = some (r, br)) (hr : r.req = some req) :
    ∀ key ∈ req.Header.keys, ContainsAny key forbiddenChars = false := by
  induction lines generalizing req0 with
  | nil =>
    rw [readHeaders] at h
    simp only [Option.some.injEq, Prod.mk.injEq] at h
    rw [← h.1] at hr; simp at hr
  | cons raw rest ih =>
    rw [readHeaders] at h
    split_ifs at h with h1 h2 h3 h4
    · simp only [Option.some.injEq, Prod.mk.injEq] at h
      rw [← h.1] at hr; simp at hr
    · simp only [Option.some.injEq, Prod.mk.injEq] at h
      rw [← h.1] at hr
      simp only [Option.some.injEq] at hr
      subst hr
      exact h0
    · split at h
      · exact Option.noConfusion h
      · refine ih _ ?_ h
        exact h0
    · split at h
      · exact Option.noConfusion h
      · refine ih _ ?_ h
        exact h0
    · split at h
      · simp only [Option.some.injEq, Prod.mk.injEq] at h
        rw [← h.1] at hr; simp at hr
      · rename_i key val hsep
        split_ifs at h with h5
        · simp only [Option.some.injEq, Prod.mk.injEq] at h
          rw [← h.1] at hr; simp at hr
        · refine ih _ ?_ h
          intro k hk
          rw [← AList.mem_keys, AList.mem_insert] at hk
          rcases hk with rfl | hk
          · simpa using h5
          · exact h0 k (AList.mem_keys.mp hk)

theorem ReadRequest_start (p : Str) (lines : List Str) (pending : Str) (fail : Err)
    (hp : startsWith p "/".toList = true) (hps : ' ' ∉ p) :
    ReadRequest ⟨("GET ".toList ++ p ++ " HTTP/1.1".toList) :: lines, pending, fail⟩ =
      readHeaders pending fail lines
        { Method := "GET".toList, URL := p, Proto := "HTTP/1.1".toList, Header := ∅,
          Host := [], Close := false } := by
  obtain ⟨c, p1, rfl⟩ : ∃ c p1, p = c :: p1 := by
    cases p with
    | nil => simp [startsWith, List.isPrefixOf] at hp
    | cons c p1 => exact ⟨c, p1, rfl⟩
  have hc : c = '/' := by
    simp [startsWith, List.isPrefixOf] at hp
    exact hp.symm
  subst hc
  unfold ReadRequest ReadLine
  simp only [parseStartLine_get _ hps]
  have hv : validMethod "GET".toList "HTTP/1.1".toList = true := by decide
  simp only [hv, Bool.not_true, Bool.false_eq_true, if_false, bne_self_eq_false]

/-- C16 as stated fails: in the header line `Accept : y` the text before the
first colon, `Accept ` with its space, contains a forbidden character, and
the line does not start with `Host` or `Connection`; yet `ReadRequest` accepts
it, since the key is trimmed before the check, and stores it under `Accept`. -/
theorem C16_counterexample :
    "Accept : y".toList = "Accept ".toList ++ ':' :: " y".toList ∧
    ':' ∉ "Accept ".toList ∧ ContainsAny "Accept ".toList forbiddenChars = true ∧
    startsWith "Accept : y".toList "Host".toList = false ∧
    startsWith "Accept : y".toList "Connection".toList = false ∧
    ReadRequest ⟨["GET / HTTP/1.1".toList, "Host: x".toList, "Accept : y".toList, []],
        [], .eof⟩ =
      some (⟨some { sampleRequest with
                    Header := (∅ : GoMap).insert "Accept".toList "y".toList }, true, none⟩,
            ⟨[], [], .eof⟩) :=
  ⟨by decide, by decide, by decide, by decide, by decide, rfl⟩

/-- C16 (amended): the header loop of `ReadRequest` starts after every valid
start line. In it, for every header line that, once trimmed, is not empty and
does not start with `Host` or `Connection`: if the trimmed line contains no
colon, `ReadRequest` fails (invalid header line); if the text before the first
colon, once trimmed, contains one of the forbidden characters, `ReadRequest`
fails (invalid header key); in both cases it returns a nil request with
bytesReceived = true; otherwise the line is accepted and stored under the
canonical form of the trimmed key. Consequently no key of a returned Header
map contains a forbidden character. -/
theorem header_line_checked (pending : Str) (fail : Err) (raw : Str) (rest : List Str)
    (req : Request) (hne : TrimSpace raw ≠ [])
    (hH : startsWith (TrimSpace raw) "Host".toList = false)
    (hC : startsWith (TrimSpace raw) "Connection".toList = false) :
    (∀ p lines, startsWith p "/".toList = true → ' ' ∉ p →
      ReadRequest ⟨("GET ".toList ++ p ++ " HTTP/1.1".toList) :: lines, pending, fail⟩ =
        readHeaders pending fail lines
          { Method := "GET".toList, URL := p, Proto := "HTTP/1.1".toList, Header := ∅,
            Host := [], Close := false }) ∧
    (':' ∉ TrimSpace raw →
      readHeaders pending fail (raw :: rest) req =
        some (⟨none, true, some .invalidHeaderLine⟩, ⟨rest, pending, fail⟩)) ∧
    (∀ k v, TrimSpace raw = k ++ ':' :: v → ':' ∉ k →
      (ContainsAny (TrimSpace k) forbiddenChars = true →
        readHeaders pending fail (raw :: rest) req =
          some (⟨none, true, some .invalidHeaderKey⟩, ⟨rest, pending, fail⟩)) ∧
      (ContainsAny (TrimSpace k) forbiddenChars = false →
        readHeaders pending fail (raw :: rest) req =
          readHeaders pending fail rest
            { req with
              Header := req.Header.insert (CanonicalHeaderKey (TrimSpace k)) (TrimSpace v) })) ∧
    (∀ (br : Reader) (r : ReadResult) (br1 : Reader) (req1 : Request),
      ReadRequest br = some (r, br1) → r.req = some req1 →
      ∀ key ∈ req1.Header.keys, ContainsAny key forbiddenChars = false) := by
  refine ⟨fun p lines hp hps => ReadRequest_start p lines pending fail hp hps, ?_, ?_, ?_⟩
  · intro hcolon
    rw [readHeaders]
    simp only [hne, hH, hC, if_false, Bool.false_eq_true, sepHeaderline_no_colon _ hcolon]
  · intro k v hkv hk
    have hsep := sepHeaderline_colon k v hk
    rw [← hkv] at hsep
    have hcanon : ContainsAny (CanonicalHeaderKey (TrimSpace k)) forbiddenChars =
        ContainsAny (TrimSpace k) forbiddenChars := ContainsAny_canonAux_eq true _
    constructor
    · intro hf
      rw [readHeaders]
      simp only [hne, hH, hC, if_false, Bool.false_eq_true, hsep, hcanon, hf, if_true]
    · intro hf
      rw [readHeaders]
      simp only [hne, hH, hC, if_false, Bool.false_eq_true, hsep, hcanon, hf]
  · intro br r br1 req1 h hr
    unfold ReadRequest ReadLine at h
    obtain ⟨lines, pending1, fail1⟩ := br
    cases lines with
    | nil =>
      simp only [Option.some.injEq, Prod.mk.injEq] at h
      rw [← h.1] at hr; simp at hr
    | cons line rest1 =>
      simp only at h
      split at h
      · simp only [Option.some.injEq, Prod.mk.injEq] at h
        rw [← h.1] at hr; simp at hr
      · split_ifs at h with hv
        · simp only [Option.some.injEq, Prod.mk.injEq] at h
          rw [← h.1] at hr; simp at hr
        · split at h
          · exact Option.noConfusion h
          · split_ifs at h with hc
            · simp only [Option.some.injEq, Prod.mk.injEq] at h
              rw [← h.1] at hr; simp at hr
            · refine readHeaders_keys _ _ _ _ r br1 req1 ?_ h hr
              intro key hkey
              simp at hkey

/-- C16 (amended), at the header lines `a_b: c` (forbidden character in the
key) and `abc` (no colon) after a valid start line and Host header. -/
theorem header_line_checked_witness :
    ReadRequest ⟨["GET / HTTP/1.1".toList, "Host: x".toList, "a_b: c".toList, []],
        [], .eof⟩ =
      some (⟨none, true, some .invalidHeaderKey⟩, ⟨[[]], [], .eof⟩) ∧
    readHeaders [] .eof ["a_b: c".toList, []] sampleRequest =
      some (⟨none, true, some .invalidHeaderKey⟩, ⟨[[]], [], .eof⟩) ∧
    readHeaders [] .eof ["abc".toList, []] sampleRequest =
      some (⟨none, true, some .invalidHeaderLine⟩, ⟨[[]], [], .eof⟩) :=
  ⟨rfl,
    ((header_line_checked [] .eof "a_b: c".toList [[]] sampleRequest (by decide) (by decide)
      (by decide)).2.2.1 "a_b".toList " c".toList (by decide) (by decide)).1 (by decide),
    (header_line_checked [] .eof "abc".toList [[]] sampleRequest (by decide) (by decide)
      (by decide)).2.1 (by decide)⟩

/-! ## C2: every request returned is complete and valid -/

theorem lastHost_cons (raw : Str) (hdrs : List Str) :
    lastHost (raw :: hdrs) =
      match lastHost hdrs with
      | some l => some l
      | none => if startsWith (TrimSpace raw) "Host".toList then some (TrimSpace raw) else none := by
  unfold lastHost
  simp only [List.map_cons, List.filter_cons]
  by_cases hc : startsWith (TrimSpace raw) "Host".toList = true
  · simp only [hc, if_true, List.getLast?_cons]
    cases (List.filter (fun l => startsWith l "Host".toList)
      (List.map TrimSpace hdrs)).getLast? <;> rfl
  · simp only [hc, Bool.false_eq_true, if_false]
    cases (List.filter (fun l => startsWith l "Host".toList)
      (List.map TrimSpace hdrs)).getLast? <;> rfl

theorem host_step (raw : Str) (hdrs : List Str) (h0 : Str) :
    ((lastHost (raw :: hdrs)).map (fun l => ((SplitN l ' ' 2)[1]?).getD [])).getD h0 =
      ((lastHost hdrs).map (fun l => ((SplitN l ' ' 2)[1]?).getD [])).getD
        (if startsWith (TrimSpace raw) "Host".toList then
          ((SplitN (TrimSpace raw) ' ' 2)[1]?).getD [] else h0) := by
  rw [lastHost_cons]
  cases lastHost hdrs with
  | some l => rfl
  | none =>
    by_cases hc : startsWith (TrimSpace raw) "Host".toList = true
    · simp only [if_pos hc, Option.map_some', Option.getD_some, Option.map_none',
        Option.getD_none]
    · simp only [if_neg hc, Option.map_none', Option.getD_none]

theorem lastHost_mem (hdrs : List Str) (l : Str) (h : lastHost hdrs = some l) :
    l ∈ hdrs.map TrimSpace ∧ startsWith l "Host".toList = true := by
  unfold lastHost at h
  have hm := List.mem_of_getLast?_eq_some h
  rw [List.mem_filter] at hm
  exact hm

theorem readHeaders_host (pending : Str) (fail : Err) (lines : List Str) (req0 : Request)
    (r : ReadResult) (br : Reader) (req : Request)
    (h : readHeaders pending fail lines req0 = some (r, br)) (hr : r.req = some req) :
    ∃ hdrs term, lines = hdrs ++ term :: br.lines ∧ TrimSpace term = [] ∧
      (∀ l ∈ hdrs, TrimSpace l ≠ []) ∧
      req.Host =
        ((lastHost hdrs).map (fun l => ((SplitN l ' ' 2)[1]?).getD [])).getD req0.Host := by
  induction lines generalizing req0 with
  | nil =>
    rw [readHeaders] at h
    simp only [Option.some.injEq, Prod.mk.injEq] at h
    rw [← h.1] at hr; simp at hr
  | cons raw rest ih =>
    rw [readHeaders] at h
    split_ifs at h with h1 h2 h3 h4
    · simp only [Option.some.injEq, Prod.mk.injEq] at h
      rw [← h.1] at hr; simp at hr
    · simp only [Option.some.injEq, Prod.mk.injEq] at h
      rw [← h.1] at hr
      simp only [Option.some.injEq] at hr
      subst hr
      refine ⟨[], raw, ?_, h1, ?_, rfl⟩
      · rw [← h.2]; rfl
      · intro l hl; simp at hl
    · split at h
      · exact Option.noConfusion h
      · rename_i v hv
        obtain ⟨hdrs, term, e1, e2, e3, e4⟩ := ih _ h
        refine ⟨raw :: hdrs, term, by rw [e1]; rfl, e2, ?_, ?_⟩
        · intro l hl
          rcases List.mem_cons.mp hl with rfl | hl
          · exact h1
          · exact e3 l hl
        · rw [host_step, if_pos h3, hv]
          exact e4
    · split at h
      · exact Option.noConfusion h
      · obtain ⟨hdrs, term, e1, e2, e3, e4⟩ := ih _ h
        refine ⟨raw :: hdrs, term, by rw [e1]; rfl, e2, ?_, ?_⟩
        · intro l hl
          rcases List.mem_cons.mp hl with rfl | hl
          · exact h1
          · exact e3 l hl
        · rw [host_step, if_neg h3]
          exact e4
    · split at h
      · simp only [Option.some.injEq, Prod.mk.injEq] at h
        rw [← h.1] at hr; simp at hr
      · split_ifs at h with h5
        · simp only [Option.some.injEq, Prod.mk.injEq] at h
          rw [← h.1] at hr; simp at hr
        · obtain ⟨hdrs, term, e1, e2, e3, e4⟩ := ih _ h
          refine ⟨raw :: hdrs, term, by rw [e1]; rfl, e2, ?_, ?_⟩
          · intro l hl
            rcases List.mem_cons.mp hl with rfl | hl
            · exact h1
            · exact e3 l hl
          · rw [host_step, if_neg h3]
            exact e4

/-- C2 as stated fails in its last part: the header block below has no Host
header, its only line being the header `Hostile` (the generic splitter gives
the key `Hostile`, which is not `Host`); yet the line starts with the literal
`Host`, so `ReadRequest` takes it as the Host header and returns a request,
with Host `x`. -/
theorem C2_counterexample :
    sepHeaderline (TrimSpace "Hostile: x".toList) = .ok ("Hostile".toList, "x".toList) ∧
    "Hostile".toList ≠ "Host".toList ∧
    ReadRequest ⟨["GET / HTTP/1.1".toList, "Hostile: x".toList, []], [], .eof⟩ =
      some (⟨some sampleRequest, true, none⟩, ⟨[], [], .eof⟩) ∧
    sampleRequest.Host = "x".toList :=
  ⟨rfl, by decide, rfl, rfl⟩

/-- C2 (amended): every request `ReadRequest` returns is complete and valid:
its Method is `GET`, its Proto is `HTTP/1.1`, its URL begins with `/` and its
Host is not empty. The lines read are a start line with exactly the fields
`GET`, the URL and `HTTP/1.1`, the header block (lines that are not empty once
trimmed) and a line that is empty once trimmed; the header block holds a line
that, once trimmed, starts with the literal `Host`, and the Host of the
request is the text after the first space of the last such line. Hence a
start line with another method or version, or a header block (the lines
before the first empty line) without a line starting with the literal `Host`,
never produces a request. -/
theorem ReadRequest_request_valid (br : Reader) (r : ReadResult) (br1 : Reader) (req : Request)
    (h : ReadRequest br = some (r, br1)) (hr : r.req = some req) :
    req.Method = "GET".toList ∧ req.Proto = "HTTP/1.1".toList ∧
    startsWith req.URL "/".toList = true ∧ req.Host ≠ [] ∧
    ∃ line hdrs term, br.lines = line :: (hdrs ++ term :: br1.lines) ∧
      TrimSpace term = [] ∧ (∀ l ∈ hdrs, TrimSpace l ≠ []) ∧
      parseStartLine line = .ok ("GET".toList, req.URL, "HTTP/1.1".toList) ∧
      ∃ l, lastHost hdrs = some l ∧ l ∈ hdrs.map TrimSpace ∧
        startsWith l "Host".toList = true ∧ (SplitN l ' ' 2)[1]? = some req.Host := by
  obtain ⟨f1, f2, f3, f4, line0, rest0, f5, f6, _⟩ := ReadRequest_fields br r br1 req h hr
  refine ⟨f1, f2, f3, f4, ?_⟩
  unfold ReadRequest ReadLine at h
  obtain ⟨lines, pending, fail⟩ := br
  cases lines with
  | nil =>
    simp only [Option.some.injEq, Prod.mk.injEq] at h
    rw [← h.1] at hr; simp at hr
  | cons line rest =>
    simp only [List.cons.injEq] at f5
    obtain ⟨rfl, rfl⟩ := f5
    simp only at h
    split at h
    · simp only [Option.some.injEq, Prod.mk.injEq] at h
      rw [← h.1] at hr; simp at hr
    · split_ifs at h with hv
      · simp only [Option.some.injEq, Prod.mk.injEq] at h
        rw [← h.1] at hr; simp at hr
      · split at h
        · exact Option.noConfusion h
        · split_ifs at h with hc
          · simp only [Option.some.injEq, Prod.mk.injEq] at h
            rw [← h.1] at hr; simp at hr
          · obtain ⟨hdrs, term, e1, e2, e3, e4⟩ := readHeaders_host _ _ _ _ r br1 req h hr
            refine ⟨line, hdrs, term, by rw [e1], e2, e3, f6, ?_⟩
            cases hl : lastHost hdrs with
            | none =>
              rw [hl] at e4
              exact absurd e4 f4
            | some l =>
              rw [hl] at e4
              simp only [Option.map_some', Option.getD_some] at e4
              obtain ⟨m1, m2⟩ := lastHost_mem hdrs l hl
              refine ⟨l, rfl, m1, m2, ?_⟩
              cases hs : (SplitN l ' ' 2)[1]? with
              | none =>
                rw [hs] at e4
                exact absurd e4 f4
              | some v =>
                rw [hs] at e4
                simp only [Option.getD_some] at e4
                rw [e4]

/-- C2 (amended), at the request `GET / HTTP/1.1` with `Host: x`. -/
theorem ReadRequest_request_valid_witness :
    ReadRequest sampleReader = some (⟨some sampleRequest, true, none⟩, ⟨[], [], .eof⟩) ∧
    sampleRequest.Method = "GET".toList ∧ sampleRequest.Proto = "HTTP/1.1".toList ∧
    startsWith sampleRequest.URL "/".toList = true ∧ sampleRequest.Host ≠ [] ∧
    ∃ line hdrs term, sampleReader.lines = line :: (hdrs ++ term :: []) ∧
      TrimSpace term = [] ∧ (∀ l ∈ hdrs, TrimSpace l ≠ []) ∧
      parseStartLine line = .ok ("GET".toList, sampleRequest.URL, "HTTP/1.1".toList) ∧
      ∃ l, lastHost hdrs = some l ∧ l ∈ hdrs.map TrimSpace ∧
        startsWith l "Host".toList = true ∧ (SplitN l ' ' 2)[1]? = some sampleRequest.Host :=
  ⟨rfl, ReadRequest_request_valid sampleReader ⟨some sampleRequest, true, none⟩
    ⟨[], [], .eof⟩ sampleRequest rfl rfl⟩

end TritonHTTP
